import Mathlib

/-!
Verification of the DynamoDB-to-Spanner adapter core against its
natural-language specification.  The definitions below are a shallow
embedding of the Go sources: the storage layer (`SpannerPut`,
`SpannerDelete`, `SpannerAdd`, `SpannerDel`, `SpannerRemove`,
`parseRow` and the per-type column parsers, `processDecodedData`,
`evaluateStatementFromRowMap`, `evaluateConditionalExpression`) and the
query planner in `service/services/services.go` (`getSpannerProjections`,
`parseSpannerColumns`, `parseSpannerCondition`, `createWhereClause`,
`parseOffset`, `parseSpannerSorting`, `parseLimit`, `createSpannerQuery`,
`QueryAttributes`, `Scan`, `Remove`).

Go strings that are manipulated character-wise (SQL text, expressions)
are modelled as `List Char`; map-like Go values (`map[string]interface{}`)
are modelled as association lists; Go `float64` numerics are modelled as
rationals (none of the verified claims depends on binary floating-point
rounding).  Helpers from packages that are not part of the provided
sources (`utils`, `pkg/errors`) are modelled from the specification and
carry a doc comment saying so.
-/

set_option linter.unusedVariables false

namespace DynamoAdapter

/-- Character strings as lists, used for all SQL/expression text. -/
abbrev Str := List Char

/-- Decimal digit character for `n % 10`. -/
def digitChar (n : Nat) : Char := Char.ofNat (48 + n % 10)

/-- Fuel-indexed digit expansion; `fuel ≥ n` makes it total on `n`. -/
def natDigitsAux : Nat → Nat → Str
  | 0, n => [digitChar n]
  | fuel + 1, n =>
    if n < 10 then [digitChar n]
    else natDigitsAux fuel (n / 10) ++ [digitChar (n % 10)]

/-- Decimal digits of a natural number, most significant first
(the output of Go `strconv.Itoa` / `FormatUint` on naturals). -/
def natDigits (n : Nat) : Str := natDigitsAux n n

/-- Decimal rendering of an `Int`, as Go `strconv.FormatInt(_, 10)`. -/
def intDigits (i : Int) : Str :=
  if i < 0 then '-' :: natDigits i.natAbs else natDigits i.natAbs

theorem digitChar_mem_digits (n : Nat) : digitChar n ∈ "0123456789".data := by
  unfold digitChar
  have h : n % 10 < 10 := Nat.mod_lt _ (by omega)
  interval_cases h2 : n % 10 <;> simp [h2]

theorem natDigitsAux_subset_digits (fuel n : Nat) :
    ∀ c ∈ natDigitsAux fuel n, c ∈ "0123456789".data := by
  induction fuel generalizing n with
  | zero =>
    intro c hc
    simp [natDigitsAux] at hc
    exact hc ▸ digitChar_mem_digits n
  | succ fuel ih =>
    intro c hc
    unfold natDigitsAux at hc
    by_cases h : n < 10
    · simp [h] at hc
      exact hc ▸ digitChar_mem_digits n
    · simp [h] at hc
      rcases hc with hc | hc
      · exact ih (n / 10) c hc
      · exact hc ▸ digitChar_mem_digits (n % 10)

theorem natDigits_subset_digits (n : Nat) :
    ∀ c ∈ natDigits n, c ∈ "0123456789".data :=
  natDigitsAux_subset_digits n n

/-- Fuel-indexed body of `replaceAll`; `fuel ≥ s.length` makes it total. -/
def replaceAllAux (p r : Str) : Nat → Str → Str
  | _, [] => if p = [] then r else []
  | 0, s => s
  | fuel + 1, c :: t =>
    if p = [] then r ++ (c :: t).foldr (fun ch acc => ch :: (r ++ acc)) []
    else if p <+: (c :: t) then
      r ++ replaceAllAux p r fuel ((c :: t).drop p.length)
    else c :: replaceAllAux p r fuel t

/-- Go `strings.ReplaceAll` on character lists: replaces non-overlapping
occurrences of `p` left to right by `r`; for an empty pattern Go inserts
`r` before every character and at the end. -/
def replaceAll (p r s : Str) : Str := replaceAllAux p r s.length s

/-- Go `strings.Contains`. -/
def goContains (s sub : Str) : Bool := decide (sub <:+: s)

/-- Go `strings.HasPrefix` (the model of `String.startsWith`). -/
def goHasPrefix (s pre : String) : Bool := decide (pre.data <+: s.data)

/-- Go `strings.HasSuffix`. -/
def goHasSuffix (s suf : String) : Bool := decide (suf.data <:+ s.data)


/-- Dynamic Go value (`interface{}`) as it flows through the adapter:
strings, float64 numbers (modelled as rationals), booleans, nil,
byte blobs (modelled as their character string), typed arrays for the
set columns, JSON-decoded lists and objects. -/
inductive Val where
  | vnull : Val
  | vbool : Bool → Val
  | vnum : Rat → Val
  | vstr : String → Val
  | vbytes : String → Val
  | vstrArr : List String → Val
  | vnumArr : List Rat → Val
  | vbytesArr : List String → Val
  | vlist : List Val → Val
  | vobj : List (String × Val) → Val

mutual

/-- Structural equality test on dynamic values (the model of Go
interface equality as used by map keys in the set-difference code). -/
def Val.beq : Val → Val → Bool
  | .vnull, .vnull => true
  | .vbool a, .vbool b => a == b
  | .vnum a, .vnum b => a == b
  | .vstr a, .vstr b => a == b
  | .vbytes a, .vbytes b => a == b
  | .vstrArr a, .vstrArr b => a == b
  | .vnumArr a, .vnumArr b => a == b
  | .vbytesArr a, .vbytesArr b => a == b
  | .vlist a, .vlist b => Val.beqList a b
  | .vobj a, .vobj b => Val.beqObj a b
  | _, _ => false

/-- Elementwise equality of value lists. -/
def Val.beqList : List Val → List Val → Bool
  | [], [] => true
  | a :: as2, b :: bs2 => Val.beq a b && Val.beqList as2 bs2
  | _, _ => false

/-- Elementwise equality of key/value lists. -/
def Val.beqObj : List (String × Val) → List (String × Val) → Bool
  | [], [] => true
  | (k1, v1) :: as2, (k2, v2) :: bs2 =>
      k1 == k2 && Val.beq v1 v2 && Val.beqObj as2 bs2
  | _, _ => false

end

/-- Association-list lookup, the model of Go map indexing. -/
def lookupVal (m : List (String × Val)) (k : String) : Option Val :=
  match m with
  | [] => none
  | (k2, v) :: rest => if k2 = k then some v else lookupVal rest k

/-- Go map assignment `m[k] = v` on an association list: replaces the
binding if the key is present, appends it otherwise. -/
def upsert {α : Type} (m : List (String × α)) (k : String) (v : α) : List (String × α) :=
  match m with
  | [] => [(k, v)]
  | (k2, w) :: rest => if k2 = k then (k2, v) :: rest else (k2, w) :: upsert rest k v

/-- Go `delete(m, k)` on an association list. -/
def removeKey {α : Type} (m : List (String × α)) (k : String) : List (String × α) :=
  m.filter (fun kv => kv.1 ≠ k)

/-! ### JSON codec (`encoding/json`) -/

/-- Decimal rendering of a rational: exact when the denominator divides a
power of ten (every Go float64 the adapter serialises does), `p/q`
otherwise.  Models `json.Marshal` of a numeric value. -/
def ratDecimal (q : Rat) : Str :=
  if q.den = 1 then intDigits q.num
  else
    let sign : Str := if q.num < 0 then ['-'] else []
    let n := q.num.natAbs
    let ip := n / q.den
    let fracNum := n % q.den
    let scaled := fracNum * (10 ^ 17) / q.den
    if fracNum * (10 ^ 17) % q.den = 0 then
      let digits := natDigits scaled
      let padded := List.replicate (17 - digits.length) '0' ++ digits
      let trimmed := (padded.reverse.dropWhile (fun c => c = '0')).reverse
      sign ++ natDigits ip ++ '.' :: trimmed
    else
      sign ++ natDigits n ++ '/' :: natDigits q.den

/-- JSON string-literal quoting with the escapes `json.Marshal` emits. -/
def jsonQuoteChar (c : Char) : Str :=
  if c = '"' then ['\\', '"']
  else if c = '\\' then ['\\', '\\']
  else if c = '\n' then ['\\', 'n']
  else if c = '\t' then ['\\', 't']
  else if c = '\x0d' then ['\\', 'r']
  else [c]

/-- JSON string literal for `s`. -/
def jsonQuote (s : String) : Str :=
  '"' :: (s.data.foldr (fun c acc => jsonQuoteChar c ++ acc) ['"'])

/-- Comma-join of already-encoded fragments. -/
def sepJoin : List Str → Str
  | [] => []
  | [x] => x
  | x :: rest => x ++ ',' :: sepJoin rest

mutual

/-- Model of `json.Marshal` on a dynamic value (compact form; the code
occasionally uses `MarshalIndent`, whose output differs only in
whitespace). -/
def jsonEncode : Val → Str
  | .vnull => "null".data
  | .vbool b => if b then "true".data else "false".data
  | .vnum q => ratDecimal q
  | .vstr s => jsonQuote s
  | .vbytes s => jsonQuote s
  | .vstrArr l => '[' :: sepJoin (l.map (fun s => jsonQuote s)) ++ [']']
  | .vnumArr l => '[' :: sepJoin (l.map (fun q => ratDecimal q)) ++ [']']
  | .vbytesArr l => '[' :: sepJoin (l.map (fun s => jsonQuote s)) ++ [']']
  | .vlist l => '[' :: jsonEncodeItems l ++ [']']
  | .vobj l => '\x7b' :: jsonEncodeFields l ++ ['\x7d']

/-- Comma-joined encodings of the elements of a JSON array. -/
def jsonEncodeItems : List Val → Str
  | [] => []
  | [v] => jsonEncode v
  | v :: rest => jsonEncode v ++ ',' :: jsonEncodeItems rest

/-- Comma-joined `key:value` encodings of a JSON object. -/
def jsonEncodeFields : List (String × Val) → Str
  | [] => []
  | [(k, v)] => jsonQuote k ++ ':' :: jsonEncode v
  | (k, v) :: rest => jsonQuote k ++ ':' :: jsonEncode v ++ ',' :: jsonEncodeFields rest

end

/-- JSON whitespace. -/
def isJsonWs (c : Char) : Bool := c = ' ' || c = '\t' || c = '\n' || c = '\x0d'

/-- Skip leading JSON whitespace. -/
def skipWs (s : Str) : Str := s.dropWhile isJsonWs

/-- Hexadecimal digit value. -/
def hexVal (c : Char) : Option Nat :=
  if '0' ≤ c ∧ c ≤ '9' then some (c.toNat - 48)
  else if 'a' ≤ c ∧ c ≤ 'f' then some (c.toNat - 87)
  else if 'A' ≤ c ∧ c ≤ 'F' then some (c.toNat - 55)
  else none

/-- Parse the body of a JSON string literal (after the opening quote),
returning the accumulated characters and the remaining input. -/
def jsonStrBody : Str → Option (List Char × Str)
  | [] => none
  | '"' :: rest => some ([], rest)
  | '\\' :: 'u' :: a :: b :: c :: d :: rest => do
    let va ← hexVal a
    let vb ← hexVal b
    let vc ← hexVal c
    let vd ← hexVal d
    let n := ((va * 16 + vb) * 16 + vc) * 16 + vd
    let (tail, rem) ← jsonStrBody rest
    some (Char.ofNat n :: tail, rem)
  | '\\' :: e :: rest => do
    let ch ← match e with
      | '"' => some '"'
      | '\\' => some '\\'
      | '/' => some '/'
      | 'n' => some '\n'
      | 't' => some '\t'
      | 'r' => some '\x0d'
      | 'b' => some '\x08'
      | 'f' => some '\x0c'
      | _ => none
    let (tail, rem) ← jsonStrBody rest
    some (ch :: tail, rem)
  | c :: rest => do
    let (tail, rem) ← jsonStrBody rest
    some (c :: tail, rem)

/-- Numeric value of a digit run. -/
def digitsToNat (l : Str) : Nat :=
  l.foldl (fun acc c => acc * 10 + (c.toNat - 48)) 0

/-- Parse a JSON number literal, returning the rational value and the
remaining input. -/
def jsonNumber (s : Str) : Option (Rat × Str) :=
  let (sign, s1) : Int × Str := match s with
    | '-' :: t => (-1, t)
    | t => (1, t)
  let ip := s1.takeWhile Char.isDigit
  let s2 := s1.dropWhile Char.isDigit
  if ip = [] then none
  else
    let (frac, s3) : Str × Str := match s2 with
      | '.' :: t => (t.takeWhile Char.isDigit, t.dropWhile Char.isDigit)
      | t => ([], t)
    if s2 ≠ [] ∧ s2.head? = some '.' ∧ frac = [] then none
    else
      let mant : Rat := (digitsToNat ip : Rat) + (digitsToNat frac : Rat) / (10 ^ frac.length)
      match s3 with
      | e :: t =>
        if e = 'e' ∨ e = 'E' then
          let (esign, t1) : Int × Str := match t with
            | '+' :: t2 => (1, t2)
            | '-' :: t2 => (-1, t2)
            | t2 => (1, t2)
          let ed := t1.takeWhile Char.isDigit
          let t2 := t1.dropWhile Char.isDigit
          if ed = [] then none
          else
            let ev : Int := esign * (digitsToNat ed : Int)
            let scaled := if 0 ≤ ev then mant * (10 ^ ev.natAbs : Rat)
                          else mant / (10 ^ ev.natAbs : Rat)
            some ((sign : Rat) * scaled, t2)
        else some ((sign : Rat) * mant, s3)
      | [] => some ((sign : Rat) * mant, [])

mutual

/-- Fuel-indexed parser for one JSON value (model of `json.Unmarshal`
into `interface{}`: objects become maps, arrays lists, numbers float64,
strings strings, booleans and null their obvious values). -/
def jsonValue : Nat → Str → Option (Val × Str)
  | 0, _ => none
  | fuel + 1, s =>
    match skipWs s with
    | 'n' :: 'u' :: 'l' :: 'l' :: rest => some (.vnull, rest)
    | 't' :: 'r' :: 'u' :: 'e' :: rest => some (.vbool true, rest)
    | 'f' :: 'a' :: 'l' :: 's' :: 'e' :: rest => some (.vbool false, rest)
    | '"' :: rest => do
      let (cs, rem) ← jsonStrBody rest
      some (.vstr (String.mk cs), rem)
    | '[' :: rest =>
      (match skipWs rest with
       | ']' :: rem => some (.vlist [], rem)
       | _ => do
         let (items, rem) ← jsonItems fuel rest
         some (.vlist items, rem))
    | '\x7b' :: rest =>
      (match skipWs rest with
       | '\x7d' :: rem => some (.vobj [], rem)
       | _ => do
         let (fields, rem) ← jsonFields fuel rest
         some (.vobj fields, rem))
    | other => do
      let (q, rem) ← jsonNumber other
      some (.vnum q, rem)

/-- Parse one or more comma-separated array items up to `]`. -/
def jsonItems : Nat → Str → Option (List Val × Str)
  | 0, _ => none
  | fuel + 1, s => do
    let (v, rem) ← jsonValue fuel s
    match skipWs rem with
    | ',' :: rest => do
      let (tail, rem2) ← jsonItems fuel rest
      some (v :: tail, rem2)
    | ']' :: rest => some ([v], rest)
    | _ => none

/-- Parse one or more comma-separated object fields up to the closing
brace. -/
def jsonFields : Nat → Str → Option (List (String × Val) × Str)
  | 0, _ => none
  | fuel + 1, s => do
    match skipWs s with
    | '"' :: rest => do
      let (cs, rem) ← jsonStrBody rest
      match skipWs rem with
      | ':' :: rem2 => do
        let (v, rem3) ← jsonValue fuel rem2
        match skipWs rem3 with
        | ',' :: rest2 => do
          let (tail, rem4) ← jsonFields fuel rest2
          some ((String.mk cs, v) :: tail, rem4)
        | '\x7d' :: rest2 => some ([(String.mk cs, v)], rest2)
        | _ => none
      | _ => none
    | _ => none

end

/-- Model of `json.Unmarshal` applied to a whole payload: parses one
value and requires only whitespace to remain. -/
def jsonParse (s : String) : Option Val :=
  match jsonValue (s.data.length + 1) s.data with
  | some (v, rem) => if skipWs rem = [] then some v else none
  | none => none

/-- Model of `strconv.ParseFloat(s, 64)` on the decimal forms the
adapter feeds it (the exotic accepted spellings such as hex floats or
infinities do not occur in the verified claims). -/
def parseFloat (s : String) : Option Rat :=
  match jsonNumber s.data with
  | some (q, []) => some q
  | _ => none

/-! ### Base64 (`encoding/base64` std alphabet) -/

/-- Index of a character in the std base64 alphabet. -/
def b64Index (c : Char) : Option Nat :=
  if 'A' ≤ c ∧ c ≤ 'Z' then some (c.toNat - 65)
  else if 'a' ≤ c ∧ c ≤ 'z' then some (c.toNat - 97 + 26)
  else if '0' ≤ c ∧ c ≤ '9' then some (c.toNat - 48 + 52)
  else if c = '+' then some 62
  else if c = '/' then some 63
  else none

/-- Membership in the base64 alphabet. -/
def b64Alpha (c : Char) : Bool := (b64Index c).isSome

/-- The regular expression
`^([A-Za-z0-9+/]{4})*([A-Za-z0-9+/]{3}=|[A-Za-z0-9+/]{2}==)?$`
(`base64Regexp` in the storage package): zero or more full alphabet
quadruples followed by an optional final padded group. -/
def base64RegexpMatch : Str → Bool
  | [] => true
  | [a, b, '=', '='] => b64Alpha a && b64Alpha b
  | [a, b, c, '='] => b64Alpha a && b64Alpha b && b64Alpha c
  | a :: b :: c :: d :: rest =>
      b64Alpha a && b64Alpha b && b64Alpha c && b64Alpha d && base64RegexpMatch rest
  | _ => false

/-- Model of `base64.StdEncoding.DecodeString`, producing the byte
values; fails on input that is not well-formed padded base64. -/
def base64DecodeBytes : Str → Option (List Nat)
  | [] => some []
  | [a, b, '=', '='] => do
    let va ← b64Index a
    let vb ← b64Index b
    some [va * 4 + vb / 16]
  | [a, b, c, '='] => do
    let va ← b64Index a
    let vb ← b64Index b
    let vc ← b64Index c
    some [va * 4 + vb / 16, (vb % 16) * 16 + vc / 4]
  | a :: b :: c :: d :: rest => do
    let va ← b64Index a
    let vb ← b64Index b
    let vc ← b64Index c
    let vd ← b64Index d
    let tail ← base64DecodeBytes rest
    some ((va * 4 + vb / 16) :: ((vb % 16) * 16 + vc / 4) :: ((vc % 4) * 64 + vd) :: tail)
  | _ => none

/-- Bytes to the character string the Go code treats them as. -/
def bytesToString (l : List Nat) : String := String.mk (l.map Char.ofNat)

/-- Decoded payload of a base64 string. -/
def base64DecodeString (s : String) : Option String :=
  (base64DecodeBytes s.data).map bytesToString

/-! ### Row decoding (`storage` package) -/

/-- Wire-visible adapter errors (`pkg/errors` names). -/
inductive Err where
  | conditionalCheckFailed
  | resourceNotFound
  | validationException
  | typeNotFound
  | jsonParseError
  | custom : String → Err
  deriving DecidableEq

/-- Generic association-list lookup. -/
def alookup {α : Type} : List (String × α) → String → Option α
  | [], _ => none
  | (k2, v) :: rest, k => if k2 = k then some v else alookup rest k

/-- Row snapshot: Go `map[string]interface{}` keyed by column name.
`Val.vnull` models a Go nil interface value stored under a present key. -/
abbrev RowMap := List (String × Val)

/-- Typed Spanner column value as the client scans it into Go targets. -/
inductive Cell where
  | nullString : Option String → Cell
  | bytesCell : Option String → Cell
  | nullFloat : Option Rat → Cell
  | nullBool : Option Bool → Cell
  | strArr : List (Option String) → Cell
  | byteArr : List String → Cell
  | numArr : List (Option Rat) → Cell
  | nullJson : Option Val → Cell

/-- Base64-decode a string matching `base64Regexp` and JSON-parse the
payload; `none` when either step fails (mirrors the nested success
checks in `processDecodedData`). -/
def decodeB64Json (s : String) : Option Val :=
  if base64RegexpMatch s.data then
    match base64DecodeString s with
    | some payload => jsonParse payload
    | none => none
  else none

/-- Model of `processDecodedData`: a string matching the base64 regexp
whose decoded payload parses as JSON is replaced by the decoded JSON;
inside a map the same replacement is applied to each string field. -/
def processDecodedData (m : Val) : Val :=
  match m with
  | .vstr s =>
    (match decodeB64Json s with
     | some v => v
     | none => .vstr s)
  | .vobj fields =>
    .vobj (fields.map fun kv =>
      match kv.2 with
      | .vstr s =>
        (match decodeB64Json s with
         | some v => (kv.1, v)
         | none => kv)
      | _ => kv)
  | other => other

/-- Modelled from the spec: `utils.IsValidBase64` is not under `src/`;
the storage package's own `base64Regexp` (which is under `src/`) is the
base64 well-formedness test the spec describes ("matching the base64
alphabet with `=` padding"), so the helper is modelled by that match. -/
def isValidBase64 (s : String) : Bool := base64RegexpMatch s.data

/-- Modelled from the spec: `utils.ParseBytes` is not under `src/`.  Per
§4.1 a bytes payload is JSON-decoded, with fallback to the raw string
when decoding fails, and decoded data is post-processed like
`parseBytesColumn` does; here applied to the base64-decoded payload of
the string column that triggered the re-read. -/
def parseBytesFromString (s : String) : Val :=
  match base64DecodeString s with
  | some payload =>
    (match jsonParse payload with
     | some v => processDecodedData v
     | none => .vstr payload)
  | none => .vstr s

/-- Model of `parseStringColumn`: a NULL value stores nil under the
column key; a string ending in `=` that passes the base64 check is
re-read through the bytes path; otherwise the raw string is stored. -/
def parseStringColumn (cell : Cell) (col : String) (row : RowMap) :
    Except Err RowMap :=
  match cell with
  | .nullString none => .ok (upsert row col .vnull)
  | .nullString (some s) =>
    if goHasSuffix s "=" ∧ isValidBase64 s then
      .ok (upsert row col (parseBytesFromString s))
    else .ok (upsert row col (.vstr s))
  | _ => .error .validationException

/-- Model of `parseBytesColumn`: non-empty bytes are JSON-decoded (with
`processDecodedData` applied) and fall back to the raw string; empty or
nil bytes leave the row untouched. -/
def parseBytesColumn (cell : Cell) (col : String) (row : RowMap) :
    Except Err RowMap :=
  match cell with
  | .bytesCell none => .ok row
  | .bytesCell (some s) =>
    if s.length = 0 then .ok row
    else
      match jsonParse s with
      | none => .ok (upsert row col (.vstr s))
      | some v => .ok (upsert row col (processDecodedData v))
  | _ => .error .validationException

/-- Model of `parseNumericColumn`. -/
def parseNumericColumn (cell : Cell) (col : String) (row : RowMap) :
    Except Err RowMap :=
  match cell with
  | .nullFloat none => .ok (upsert row col .vnull)
  | .nullFloat (some q) => .ok (upsert row col (.vnum q))
  | _ => .error .validationException

/-- Model of `parseBoolColumn`. -/
def parseBoolColumn (cell : Cell) (col : String) (row : RowMap) :
    Except Err RowMap :=
  match cell with
  | .nullBool none => .ok (upsert row col .vnull)
  | .nullBool (some b) => .ok (upsert row col (.vbool b))
  | _ => .error .validationException

/-- Model of `parseStringArrayColumn`: NULL elements contribute their
zero value `""`; an empty array leaves the row untouched. -/
def parseStringArrayColumn (cell : Cell) (col : String) (row : RowMap) :
    Except Err RowMap :=
  match cell with
  | .strArr l =>
    if l = [] then .ok row
    else .ok (upsert row col (.vstrArr (l.map (fun o => o.getD ""))))
  | _ => .error .validationException

/-- Model of `parseByteArrayColumn`. -/
def parseByteArrayColumn (cell : Cell) (col : String) (row : RowMap) :
    Except Err RowMap :=
  match cell with
  | .byteArr l =>
    if l = [] then .ok row else .ok (upsert row col (.vbytesArr l))
  | _ => .error .validationException

/-- Model of `parseNumberArrayColumn`: only valid (non-NULL) elements
are kept; an empty array leaves the row untouched. -/
def parseNumberArrayColumn (cell : Cell) (col : String) (row : RowMap) :
    Except Err RowMap :=
  match cell with
  | .numArr l =>
    if l = [] then .ok row
    else .ok (upsert row col (.vnumArr (l.filterMap id)))
  | _ => .error .validationException

/-- Model of `parseNullColumn`. -/
def parseNullColumn (cell : Cell) (col : String) (row : RowMap) :
    Except Err RowMap :=
  match cell with
  | .nullString none => .ok (upsert row col .vnull)
  | .nullString (some _) => .ok row
  | _ => .error .validationException

theorem sizeOf_lookupVal {m : List (String × Val)} {k : String} {v : Val}
    (h : lookupVal m k = some v) : sizeOf v < 1 + sizeOf m := by
  induction m with
  | nil => simp [lookupVal] at h
  | cons hd tl ih =>
    obtain ⟨k2, w⟩ := hd
    by_cases hk : k2 = k
    · simp [lookupVal, hk] at h
      subst h
      simp
      omega
    · simp [lookupVal, hk] at h
      have := ih h
      simp
      omega

mutual

/-- Nesting depth of a dynamic value (fuel bound for tag stripping). -/
def Val.depth : Val → Nat
  | .vobj l => 1 + Val.depthObj l
  | .vlist l => 1 + Val.depthList l
  | _ => 1

/-- Maximal depth of a list of values. -/
def Val.depthList : List Val → Nat
  | [] => 0
  | v :: t => max (Val.depth v) (Val.depthList t)

/-- Maximal depth of the values of a key/value list. -/
def Val.depthObj : List (String × Val) → Nat
  | [] => 0
  | (_, v) :: t => max (Val.depth v) (Val.depthObj t)

end

/-- Model of `parseDynamoDBJSON`: converts a DynamoDB-tagged JSON
structure to a native value.  The Go code inspects the map keys in map
iteration order; a well-formed tagged value carries exactly one tag, so
the fixed order used here (S, N, BOOL, NULL, M, L) is equivalent on the
payloads the adapter produces.  As in Go, a failed `ParseFloat` under
`N` yields 0 and `NULL: false` returns the value unchanged; the Go type
assertions under each tag panic on ill-typed payloads, which the model
renders by returning the value unchanged. -/
def parseDynamoDBJSONAux : Nat → Val → Val
  | 0, v => v
  | fuel + 1, v =>
    match v with
    | .vnull => .vnull
    | .vobj l =>
      match lookupVal l "S" with
      | some (.vstr s) => .vstr s
      | some other => other
      | none =>
      match lookupVal l "N" with
      | some (.vstr s) => .vnum ((parseFloat s).getD 0)
      | some other => other
      | none =>
      match lookupVal l "BOOL" with
      | some (.vbool b) => .vbool b
      | some other => other
      | none =>
      match lookupVal l "NULL" with
      | some (.vbool true) => .vnull
      | some _ => .vobj l
      | none =>
      match lookupVal l "M" with
      | some (.vobj fields) =>
        .vobj (fields.map fun kv => (kv.1, parseDynamoDBJSONAux fuel kv.2))
      | some other => other
      | none =>
      match lookupVal l "L" with
      | some (.vlist items) =>
        .vlist (items.map fun it => parseDynamoDBJSONAux fuel it)
      | some other => other
      | none => .vobj l
    | .vlist items =>
      .vlist (items.map fun it => parseDynamoDBJSONAux fuel it)
    | other => other

def parseDynamoDBJSON (v : Val) : Val := parseDynamoDBJSONAux v.depth v

/-- Model of `parseListColumn`: a non-NULL JSON cell is decoded through
`parseDynamoDBJSON`; a NULL cell leaves the row untouched. -/
def parseListColumn (cell : Cell) (col : String) (row : RowMap) :
    Except Err RowMap :=
  match cell with
  | .nullJson none => .ok row
  | .nullJson (some v) => .ok (upsert row col (parseDynamoDBJSON v))
  | _ => .error .validationException

/-- Modelled from the spec: `utils.ParseNestedJSON` is not under
`src/`.  Per §4.5 the decoded JSON object itself becomes the item value
for an `M` column (the raw shape is kept separately in the spanner-row
map), so the helper is modelled as the identity on the decoded value. -/
def parseNestedJSON (v : Val) : Val := v

/-- Model of `parseMapColumn`: decodes the JSON cell into the item row
and records the raw decoded shape in the spanner-row map. -/
def parseMapColumn (cell : Cell) (col : String) (row spannerRow : RowMap) :
    Except Err (RowMap × RowMap) :=
  match cell with
  | .nullJson none => .ok (row, spannerRow)
  | .nullJson (some v) =>
    .ok (upsert row col (parseNestedJSON v), upsert spannerRow col v)
  | _ => .error .validationException

/-- Per-column dispatch loop of `parseRow` over the row's columns. -/
def parseRowCells : List (String × Cell) → List (String × String) →
    RowMap → RowMap → Except Err (RowMap × RowMap)
  | [], _, single, srow => .ok (single, srow)
  | (k, cell) :: rest, ddl, single, srow =>
    if k = "" ∨ k = "commit_timestamp" then parseRowCells rest ddl single srow
    else
      match alookup ddl k with
      | none => .error .resourceNotFound
      | some tag =>
        if tag = "S" then do
          let s ← parseStringColumn cell k single
          parseRowCells rest ddl s srow
        else if tag = "B" then do
          let s ← parseBytesColumn cell k single
          parseRowCells rest ddl s srow
        else if tag = "N" then do
          let s ← parseNumericColumn cell k single
          parseRowCells rest ddl s srow
        else if tag = "BOOL" then do
          let s ← parseBoolColumn cell k single
          parseRowCells rest ddl s srow
        else if tag = "SS" then do
          let s ← parseStringArrayColumn cell k single
          parseRowCells rest ddl s srow
        else if tag = "BS" then do
          let s ← parseByteArrayColumn cell k single
          parseRowCells rest ddl s srow
        else if tag = "NS" then do
          let s ← parseNumberArrayColumn cell k single
          parseRowCells rest ddl s srow
        else if tag = "NULL" then do
          let s ← parseNullColumn cell k single
          parseRowCells rest ddl s srow
        else if tag = "L" then do
          let s ← parseListColumn cell k single
          parseRowCells rest ddl s srow
        else if tag = "M" then do
          let (s, sr) ← parseMapColumn cell k single srow
          parseRowCells rest ddl s sr
        else .error .typeNotFound

/-- Model of `parseRow`: a nil row yields an empty map and no error;
otherwise each column is parsed according to its DDL tag, with unknown
columns failing as ResourceNotFound and unknown tags as TypeNotFound. -/
def parseRow (r : Option (List (String × Cell))) (colDDL : List (String × String)) :
    Except Err (RowMap × RowMap) :=
  match r with
  | none => .ok ([], [])
  | some cells => parseRowCells cells colDDL [] []

/-! ### Condition evaluation (`evaluateConditionalExpression`) -/

/-- Result of `evaluateStatementFromRowMap` (a Go `interface{}` that is
a boolean, a row value, or an error value). -/
inductive StmtRes where
  | sbool : Bool → StmtRes
  | sval : Val → StmtRes
  | serr : String → StmtRes

/-- Word character of the regexp class `\w`. -/
def isWordChar (c : Char) : Bool := c.isAlphanum || c = '_'

/-- Left-to-right search for the regexp `size\((\w+)\)`, returning the
captured attribute name of the first match. -/
def findSizeArg : Str → Option String
  | 's' :: 'i' :: 'z' :: 'e' :: '(' :: rest =>
    let w := rest.takeWhile isWordChar
    let r2 := rest.dropWhile isWordChar
    if w ≠ [] ∧ r2.head? = some ')' then some (String.mk w)
    else findSizeArg rest
  | _ :: rest => findSizeArg rest
  | [] => none

/-- Model of `evaluateStatementFromRowMap`: dispatches on the leading
keyword of the compiled condition fragment against the row snapshot. -/
def evaluateStatementFromRowMap (conditionalExpression colName : String)
    (rowMap : RowMap) : StmtRes :=
  if goHasPrefix conditionalExpression "attribute_not_exists" ∨
     goHasPrefix conditionalExpression "if_not_exists" then
    if rowMap.isEmpty then .sbool true
    else .sbool (lookupVal rowMap colName).isNone
  else if goHasPrefix conditionalExpression "attribute_exists" ∨
          goHasPrefix conditionalExpression "if_exists" then
    if rowMap.isEmpty then .sbool false
    else .sbool (lookupVal rowMap colName).isSome
  else if goHasPrefix conditionalExpression "size(" then
    match findSizeArg conditionalExpression.data with
    | some attributeName =>
      (match lookupVal rowMap attributeName with
       | none => .serr "Attribute not found in row"
       | some (.vlist l) => .sval (.vnum l.length)
       | some _ => .serr "size() function is only valid for list attributes")
    | none => .serr "Invalid size() function syntax"
  else .sval ((lookupVal rowMap conditionalExpression).getD .vnull)

/-- Per-table configuration from the registry (partition key, optional
sort key, actual backend table, secondary indexes). -/
structure TableConf where
  partitionKey : String
  sortKey : String
  actualTable : String
  indices : List (String × (String × String))

/-- Process-wide immutable state: the DDL map, the column-list map, the
table-config registry and the configured scan query limit. -/
structure Globals where
  tableDDL : List (String × List (String × String))
  tableColumnMap : List (String × List String)
  tableConf : List (String × TableConf)
  queryLimit : Int

/-- Rows of one backend table together with its primary-key schema,
rows kept in their post-decode form. -/
structure TableData where
  pk : String
  sk : String
  rows : List RowMap

/-- Backend database state, keyed by backend table name. -/
abbrev DB := List (String × TableData)

/-- Whether a stored row matches the primary key being read. -/
def rowMatchesKey (pk sk : String) (keyP : Val) (keyS : Option Val)
    (row : RowMap) : Bool :=
  (match lookupVal row pk with
   | some v => Val.beq v keyP
   | none => false) &&
  (match keyS with
   | none => true
   | some s =>
     match lookupVal row sk with
     | some v => Val.beq v s
     | none => false)

/-- Projection of a stored row to the requested columns. -/
def projectRow (cols : List String) (row : RowMap) : RowMap :=
  row.filter (fun kv => kv.1 ∈ cols)

/-- Find the row a point-read returns, if any. -/
def findRow (db : DB) (table : String) (pk sk : String) (keyP : Val)
    (keyS : Option Val) : Option RowMap :=
  match alookup db table with
  | none => none
  | some td => td.rows.find? (rowMatchesKey pk sk keyP keyS)

/-- Modelled from the spec: `errors.AssignError` is not under `src/`.
Per §4.3 ("attribute_not_exists ... also true when the snapshot is
empty (e.g. no row yet)") a transactional point-read that finds no row
is not an error: it produces the nil row that `parseRow` maps to an
empty snapshot.  This definition is that read followed by projection. -/
def condSnapshot (db : DB) (table : String) (pk sk : String) (keyP : Val)
    (keyS : Option Val) (cols : List String) : RowMap :=
  match findRow db table pk sk keyP keyS with
  | none => []
  | some row => projectRow cols row

/-- Model of the `linq` intersect used by the code: elements of the
first list that occur in the second, first-occurrence order, distinct. -/
def intersectDistinct (xs ys : List String) : List String :=
  xs.foldl (fun acc x => if x ∈ ys ∧ x ∉ acc then acc ++ [x] else acc) []

/-- Compiled fragments of an update expression's conditional parts
(`models.UpdateExpressionCondition`). -/
structure UpdateExprCond where
  field : List String
  value : List String
  condition : List String
  actionVal : String
  addValues : List (String × Rat)

/-- Compiled condition (`models.Eval`).  The `antonmedv/expr` virtual
machine that executes the compiled program is not part of the provided
sources; per §4.3 it is a closure over the bound value map returning a
boolean, modelled here as the `cond` field. -/
structure EvalMdl where
  cond : List (String × StmtRes) → Except Err Bool
  attributes : List String
  cols : List String
  tokens : List String
  valueMap : List (String × StmtRes)

/-- Model of `checkInifinty` (source spelling): Go checks the float64
against ±Inf; rational arithmetic cannot overflow, so the check always
passes in the model (no verified claim exercises float overflow). -/
def checkInifinty (value : Rat) : Except Err Unit := .ok ()

/-- Modelled from the spec: `utils.EvaluateExpression` is not under
`src/`; per §4.3 it runs the compiled condition against the bound value
map and returns a boolean. -/
def evaluateExpression (e : EvalMdl) (vm : List (String × StmtRes)) :
    Except Err Bool := e.cond vm

/-- One step of the `expr.Field` loop in
`evaluateConditionalExpression`: evaluates the fragment's condition
against the snapshot, applies or drops the pending `AddValues`
increment for the field, and removes the field from `AddValues`. -/
def evalExprFieldStep (rowMap : RowMap)
    (st : RowMap × List (String × Rat)) (fc : String × String) :
    Except Err (RowMap × List (String × Rat)) := do
  let (m1, av) := st
  let colName :=
    if goHasPrefix fc.1 "size(" then
      match findSizeArg fc.1.data with
      | some attributeName => attributeName
      | none => fc.1
    else fc.1
  let status := evaluateStatementFromRowMap fc.2 colName rowMap
  let statusTrue := match status with | .sbool true => true | _ => false
  if !statusTrue then
    match alookup av fc.1 with
    | some v1 =>
      (match lookupVal rowMap fc.1 with
       | some (.vnum q) => do
         let _ ← checkInifinty (q + v1)
         .ok (upsert m1 fc.1 (.vnum (q + v1)), removeKey av fc.1)
       | _ => .ok (m1, removeKey av fc.1))
    | none => .ok (removeKey m1 fc.1, removeKey av fc.1)
  else
    match alookup av fc.1 with
    | some v1 =>
      (match lookupVal m1 fc.1 with
       | some (.vnum q) => do
         let _ ← checkInifinty (q + v1)
         .ok (upsert m1 fc.1 (.vnum (q + v1)), removeKey av fc.1)
       | _ => .ok (m1, removeKey av fc.1))
    | none => .ok (m1, removeKey av fc.1)

/-- Application of the `AddValues` increments left over after the
`expr.Field` loop: add to the snapshot value when it is numeric, else
set the increment itself. -/
def applyRemainingAddValues (rowMap : RowMap) (m1 : RowMap)
    (av : List (String × Rat)) : Except Err RowMap :=
  av.foldlM (fun acc kv =>
    match lookupVal rowMap kv.1 with
    | some (.vnum q) => do
      let _ ← checkInifinty (q + kv.2)
      .ok (upsert acc kv.1 (.vnum (q + kv.2)))
    | _ => .ok (upsert acc kv.1 (.vnum kv.2))) m1

/-- Model of `evaluateConditionalExpression`: resolves schema and key,
reads the condition snapshot inside the transaction, processes the
update-expression conditional fragments (mutating the write map `m`),
binds each compiled attribute into the value map and runs the compiled
condition.  Returns the condition status together with the mutated
write map. -/
def evaluateConditionalExpression (g : Globals) (chg : String → String)
    (db : DB) (table : String) (m : RowMap) (e : EvalMdl)
    (expr : Option UpdateExprCond) : Except Err (Bool × RowMap) := do
  let colDDL ← match alookup g.tableDDL (chg table) with
    | none => .error Err.resourceNotFound
    | some d => .ok d
  let conf ← match alookup g.tableConf table with
    | none => .error Err.resourceNotFound
    | some c => .ok c
  let pKey := conf.partitionKey
  let pValue ← match lookupVal m pKey with
    | none => .error Err.validationException
    | some v => .ok v
  let sKey := conf.sortKey
  let keyS ← if sKey ≠ "" then
      match lookupVal m sKey with
      | none => .error Err.validationException
      | some v => .ok (some v)
    else .ok (none : Option Val)
  -- Go builds `cols` with `cols = append(e.Cols, expr.Field...)` and then
  -- `cols = append(e.Cols, k)` inside the AddValues loop, so each
  -- AddValues iteration discards the previous value and only the last
  -- AddValues key (in iteration order) survives next to e.Cols.
  let cols := match expr with
    | none => e.cols
    | some ex =>
      match (ex.addValues.map Prod.fst).getLast? with
      | some k => e.cols ++ [k]
      | none => e.cols ++ ex.field
  let cols2 := intersectDistinct cols ((alookup g.tableColumnMap (chg table)).getD [])
  let rowMap := condSnapshot db (chg table) pKey sKey pValue keyS cols2
  let m2 ← match expr with
    | none => .ok m
    | some ex => do
      let st ← (List.zip ex.field ex.condition).foldlM
        (evalExprFieldStep rowMap) (m, ex.addValues)
      applyRemainingAddValues rowMap st.1 st.2
  let vm := (List.zip e.attributes (List.zip e.cols e.tokens)).foldl
    (fun vm x => upsert vm x.2.2 (evaluateStatementFromRowMap x.1 x.2.1 rowMap)) e.valueMap
  let status ← evaluateExpression e vm
  .ok (status, m2)

/-! ### Write operations (read-modify-write transactions) -/

/-- Buffered Spanner mutation. -/
inductive Mutation where
  | insertOrUpdate : String → RowMap → Mutation
  | deleteRow : String → Val → Option Val → Mutation

/-- Value of a written column as the next read decodes it: the storage
layer serialises `L`/`M` columns to JSON text, and the next `parseRow`
decodes the JSON back (`parseListColumn` via `parseDynamoDBJSON`,
`parseMapColumn` via the nested-JSON decode).  Since `DB` stores rows
in their post-decode form, applying a mutation performs that round
trip. -/
def normalizeWrite (ddl : List (String × String)) (k : String) (v : Val) : Val :=
  match alookup ddl k with
  | some "L" =>
    (match v with
     | .vstr s =>
       (match jsonParse s with
        | some j => parseDynamoDBJSON j
        | none => .vstr s)
     | other => other)
  | some "M" =>
    (match v with
     | .vstr s =>
       (match jsonParse s with
        | some j => j
        | none => .vstr s)
     | other => other)
  | _ => v

/-- Merge the written columns over an existing row (`InsertOrUpdate`
semantics: listed columns are replaced, others keep their value). -/
def mergeRow (ddl : List (String × String)) (r row : RowMap) : RowMap :=
  row.foldl (fun acc kv => upsert acc kv.1 (normalizeWrite ddl kv.1 kv.2)) r

/-- Apply one committed mutation to the database state. -/
def applyMutation (g : Globals) (db : DB) : Mutation → DB
  | .insertOrUpdate table row =>
    db.map fun entry =>
      if entry.1 = table then
        let td := entry.2
        let ddl := (alookup g.tableDDL table).getD []
        let keyP := (lookupVal row td.pk).getD .vnull
        let keyS := if td.sk = "" then none else lookupVal row td.sk
        match td.rows.find? (rowMatchesKey td.pk td.sk keyP keyS) with
        | some _ =>
          (entry.1, TableData.mk td.pk td.sk
            (td.rows.map (fun r =>
              if rowMatchesKey td.pk td.sk keyP keyS r then mergeRow ddl r row else r)))
        | none =>
          (entry.1, TableData.mk td.pk td.sk
            (td.rows ++ [row.map (fun kv => (kv.1, normalizeWrite ddl kv.1 kv.2))]))
      else entry
  | .deleteRow table keyP keyS =>
    db.map fun entry =>
      if entry.1 = table then
        let td := entry.2
        (entry.1, TableData.mk td.pk td.sk
          (td.rows.filter (fun r => ¬ rowMatchesKey td.pk td.sk keyP keyS r)))
      else entry

/-- The list-to-JSON serialisation loop shared by the write paths
(`case []interface{}: json.Marshal`). -/
def serializeLists (m : RowMap) : RowMap :=
  m.map fun kv =>
    match kv.2 with
    | .vlist l => (kv.1, .vstr (String.mk (jsonEncode (.vlist l))))
    | v => (kv.1, v)

/-- Deep update of a dotted path inside a decoded JSON object: descends
existing objects and sets the final segment, leaving the object
unchanged when the path does not resolve ("Update failed: path not
found"). -/
def setPath : List (String × Val) → List String → Val → List (String × Val)
  | fields, [], _ => fields
  | fields, [p], v => upsert fields p v
  | fields, p :: rest, v =>
    match lookupVal fields p with
    | some (.vobj inner) => upsert fields p (.vobj (setPath inner rest v))
    | _ => fields

/-- Modelled from the spec: `utils.UpdateFieldByPath` is not under
`src/`; per §9 ("for writes, read the JSON payload, deep-update the
addressed path, re-serialise") it deep-updates the dotted path, whose
leading segment names the column itself. -/
def updateFieldByPath (fields : List (String × Val)) (k : String) (v : Val) :
    List (String × Val) :=
  match k.splitOn "." with
  | _ :: rest => setPath fields rest v
  | [] => fields

/-- Model of `updateMapColumnObject`: takes the raw JSON shape of the
column from the spanner-row map and deep-updates the dotted path.  The
Go code `log.Fatalf`s when the stored payload is not a JSON object,
modelled as an error; a nil payload unmarshals to a nil map and is
returned unchanged. -/
def updateMapColumnObject (spannerRow : RowMap) (colName k : String) (v : Val) :
    Except Err Val :=
  match (lookupVal spannerRow colName).getD .vnull with
  | .vobj fields => .ok (.vobj (updateFieldByPath fields k v))
  | .vnull => .ok .vnull
  | _ => .error (.custom "error unmarshalling JSON")

/-- Model of `performPutOperation`: rewrites the write map per the DDL
(dotted paths into `M` columns are merged into the stored JSON object,
`B` columns are JSON-marshalled to bytes, `M` columns JSON-marshalled
to text) and buffers one InsertOrUpdate mutation. -/
def performPutOperation (g : Globals) (table : String) (m : RowMap)
    (spannerRow : RowMap) : Except Err (List Mutation) := do
  let ddl := (alookup g.tableDDL table).getD []
  let newMap ← m.foldlM (fun acc kv => do
    let k := kv.1
    let v := kv.2
    if k.data.contains '.' then
      let colName := String.mk (k.data.takeWhile (fun c => c ≠ '.'))
      match alookup ddl colName with
      | some "M" => do
        let updated ← updateMapColumnObject spannerRow colName k v
        .ok (upsert (removeKey acc k) colName updated)
      | _ => .ok acc
    else
      match alookup ddl k with
      | some "B" => .ok (upsert acc k (.vbytes (String.mk (jsonEncode v))))
      | some "M" =>
        (match v with
         | .vnull => .ok acc
         | _ => .ok (upsert acc k (.vstr (String.mk (jsonEncode v)))))
      | _ => .ok acc) m
  .ok [Mutation.insertOrUpdate table newMap]

/-- Model of `SpannerPut`: one read/write transaction that serialises
list values, evaluates the condition when one is present (propagating
evaluation errors and failing with ConditionalCheckFailed on a false
status), and otherwise buffers the InsertOrUpdate produced by
`performPutOperation`.  The transaction commits only when the body
returns no error; the returned map is the serialised write map. -/
def SpannerPut (g : Globals) (chg : String → String) (db : DB) (table : String)
    (m : RowMap) (eval : EvalMdl) (expr : Option UpdateExprCond)
    (spannerRow : RowMap) : DB × Except Err RowMap :=
  let body : Except Err (RowMap × List Mutation) := do
    let tmpMap := serializeLists m
    let tmpMap2 ←
      if eval.attributes.length > 0 ∨ expr.isSome then do
        let (status, mm) ← evaluateConditionalExpression g chg db table tmpMap eval expr
        if status then .ok mm else .error Err.conditionalCheckFailed
      else .ok tmpMap
    let muts ← performPutOperation g (chg table) tmpMap2 spannerRow
    .ok (tmpMap2, muts)
  match body with
  | .ok (upd, muts) => (muts.foldl (applyMutation g) db, .ok upd)
  | .error e => (db, .error e)

/-- Model of `SpannerDelete`: one read/write transaction that evaluates
the condition when present (propagating evaluation errors and failing
with ConditionalCheckFailed on a false status), resolves the primary
key from the (possibly condition-mutated) write map and buffers a
Delete mutation. -/
def SpannerDelete (g : Globals) (chg : String → String) (db : DB)
    (table : String) (m : RowMap) (eval : EvalMdl)
    (expr : Option UpdateExprCond) : DB × Except Err Unit :=
  let body : Except Err (List Mutation) := do
    let tmpMap := m
    let tmpMap2 ←
      if eval.attributes.length > 0 ∨ expr.isSome then do
        let (status, mm) ← evaluateConditionalExpression g chg db table tmpMap eval expr
        if status then .ok mm else .error Err.conditionalCheckFailed
      else .ok tmpMap
    let conf ← match alookup g.tableConf table with
      | none => .error Err.resourceNotFound
      | some c => .ok c
    let pValue ← match lookupVal tmpMap2 conf.partitionKey with
      | none => .error Err.resourceNotFound
      | some v => .ok v
    let keyS ← if conf.sortKey ≠ "" then
        match lookupVal tmpMap2 conf.sortKey with
        | none => .error Err.resourceNotFound
        | some v => .ok (some v)
      else .ok (none : Option Val)
    .ok [Mutation.deleteRow (chg table) pValue keyS]
  match body with
  | .ok muts => (muts.foldl (applyMutation g) db, .ok ())
  | .error e => (db, .error e)

/-- The key/column split both update paths perform on the request map:
extracts the partition- and sort-key values and keeps the remaining
keys as the columns to read. -/
def splitKeyCols (m : RowMap) (pKey sKey : String) :
    Option Val × Option Val × List String :=
  m.foldl (fun acc kv =>
    if kv.1 = pKey then (some kv.2, acc.2.1, acc.2.2)
    else if kv.1 = sKey then (acc.1, some kv.2, acc.2.2)
    else (acc.1, acc.2.1, acc.2.2 ++ [kv.1])) (none, none, [])

/-- Model of `SpannerAdd`: resolves schema, splits the request into key
and columns, and in one read/write transaction evaluates the condition
(discarding any evaluation error and reporting
ConditionalCheckFailedException whenever the status is not true), reads
the current row (a missing row is ResourceNotFound), adds the numeric
increments, restores the key columns and buffers an InsertOrUpdate.
The per-column write loop assigns the original value back unless it is
a list (which is serialised to JSON), so the `BYTES(MAX)` marshalling
it also computes is overwritten, exactly as in the source.  Returns the
updated object in pre-serialisation form. -/
def SpannerAdd (g : Globals) (chg : String → String) (db : DB) (table : String)
    (m : RowMap) (eval : EvalMdl) (expr : Option UpdateExprCond) :
    DB × Except Err RowMap :=
  let outer : Except Err (RowMap × List Mutation) := do
    let _conf ← match alookup g.tableConf table with
      | none => .error Err.resourceNotFound
      | some c => .ok c
    let _colDDL ← match alookup g.tableDDL (chg table) with
      | none => .error Err.resourceNotFound
      | some d => .ok d
    let pKey := _conf.partitionKey
    let sKey := _conf.sortKey
    let (pValue, sValue, cols) := splitKeyCols m pKey sKey
    let m1 := m
    let tmpMap := m1
    let statusTrue :=
      if eval.attributes.length > 0 ∨ expr.isSome then
        match evaluateConditionalExpression g chg db table tmpMap eval expr with
        | .ok (st, _) => st
        | .error _ => false
      else true
    if !statusTrue ∧ (eval.attributes.length > 0 ∨ expr.isSome) then
      .error Err.conditionalCheckFailed
    else do
      let table2 := chg table
      let keyP := pValue.getD .vnull
      let row ← match findRow db table2 pKey sKey keyP sValue with
        | none => .error Err.resourceNotFound
        | some r => .ok r
      let rs := projectRow cols row
      let merged ← tmpMap.foldlM (fun acc kv =>
        match lookupVal rs kv.1 with
        | some (.vnum q) =>
          (match kv.2 with
           | .vnum x => .ok (upsert acc kv.1 (.vnum (q + x)))
           | .vstr s =>
             (match parseFloat s with
              | some x => .ok (upsert acc kv.1 (.vnum (q + x)))
              | none => .error Err.validationException)
           | _ => .error Err.validationException)
        | _ => .ok acc) tmpMap
      let withKeys :=
        let w := upsert merged pKey keyP
        match sValue with
        | some sv => upsert w sKey sv
        | none => w
      let serialized := withKeys.map (fun kv =>
        match kv.2 with
        | .vlist l => (kv.1, Val.vstr (String.mk (jsonEncode (.vlist l))))
        | v => (kv.1, v))
      .ok (withKeys, [Mutation.insertOrUpdate table2 serialized])
  match outer with
  | .ok (upd, muts) => (muts.foldl (applyMutation g) db, .ok upd)
  | .error e => (db, .error e)

/-- Go interface-value list extracted from the written value in the
set-difference paths: a bytes value is JSON-unmarshalled (yielding the
empty list on failure, which Go merely logs), a list is used as is; any
other value would make the Go type assertion panic and does not occur
on well-formed requests. -/
def deleteOperand (v : Val) : List Val :=
  match v with
  | .vbytes s =>
    (match jsonParse s with
     | some (.vlist l) => l
     | _ => [])
  | .vlist l => l
  | _ => []

/-- Set difference as the DELETE path computes it: the stored list is
keyed into a map (collapsing duplicates), the operand elements are
removed, and the remainder is emitted (Go iterates the map in
unspecified order; the model keeps first-occurrence order). -/
def setDifference (stored operand : List Val) : List Val :=
  let distinct := stored.foldl (fun acc x =>
    if acc.any (Val.beq x) then acc else acc ++ [x]) []
  distinct.filter (fun x => ¬ (operand.any (Val.beq x)))

/-- Model of `SpannerDel` (the DELETE update action): resolves schema,
splits the request, and in one read/write transaction evaluates the
condition (discarding any evaluation error and reporting
ConditionalCheckFailedException whenever the status is not true), reads
the current row (a missing row is ResourceNotFound), subtracts the
operand elements from each stored list-typed column, restores the keys,
JSON-marshals `BYTES(MAX)` columns and buffers an InsertOrUpdate. -/
def SpannerDel (g : Globals) (chg : String → String) (db : DB) (table : String)
    (m : RowMap) (eval : EvalMdl) (expr : Option UpdateExprCond) :
    DB × Except Err Unit :=
  let outer : Except Err (List Mutation) := do
    let _conf ← match alookup g.tableConf table with
      | none => .error Err.resourceNotFound
      | some c => .ok c
    let _colDDL ← match alookup g.tableDDL (chg table) with
      | none => .error Err.resourceNotFound
      | some d => .ok d
    let pKey := _conf.partitionKey
    let sKey := _conf.sortKey
    let (pValue, sValue, cols) := splitKeyCols m pKey sKey
    let m1 := m
    let mRest := (removeKey (removeKey m pKey) sKey)
    let tmpMap := mRest
    let statusTrue :=
      if eval.attributes.length > 0 ∨ expr.isSome then
        match evaluateConditionalExpression g chg db table m1 eval expr with
        | .ok (st, _) => st
        | .error _ => false
      else true
    if !statusTrue ∧ (eval.attributes.length > 0 ∨ expr.isSome) then
      .error Err.conditionalCheckFailed
    else do
      let table2 := chg table
      let keyP := pValue.getD .vnull
      let row ← match findRow db table2 pKey sKey keyP sValue with
        | none => .error Err.resourceNotFound
        | some r => .ok r
      let rs := projectRow cols row
      let merged := tmpMap.foldl (fun acc kv =>
        match lookupVal rs kv.1 with
        | some (.vlist stored) =>
          upsert acc kv.1 (.vlist (setDifference stored (deleteOperand kv.2)))
        | _ => acc) tmpMap
      let withKeys :=
        let w := upsert merged pKey keyP
        match sValue with
        | some sv => upsert w sKey sv
        | none => w
      let ddl := (alookup g.tableDDL table2).getD []
      let serialized := withKeys.map (fun kv =>
        match alookup ddl kv.1 with
        | some "BYTES(MAX)" => (kv.1, Val.vbytes (String.mk (jsonEncode kv.2)))
        | _ => kv)
      .ok [Mutation.insertOrUpdate table2 serialized]
  match outer with
  | .ok muts => (muts.foldl (applyMutation g) db, .ok ())
  | .error e => (db, .error e)

/-- Modelled from the spec: `utils.ParseListRemoveTarget` is not under
`src/`; it splits an `attr[i]` removal target into attribute name and
index, returning index -1 when the target is not of that form. -/
def parseListRemoveTarget (target : String) : String × Int :=
  let name := target.data.takeWhile (fun c => c ≠ '[')
  match target.data.dropWhile (fun c => c ≠ '[') with
  | '[' :: t =>
    let ds := t.takeWhile Char.isDigit
    let r2 := t.dropWhile Char.isDigit
    if ds ≠ [] ∧ r2 = [']'] then (String.mk name, (digitsToNat ds : Int))
    else (target, -1)
  | _ => (target, -1)

/-- Modelled from the spec: `utils.RemoveListElement` is not under
`src/`; per §4.2 ("for `path[i]`, remove element i from the current
list value; list index removal preserves order of remaining elements")
it removes the element at the index, leaving the list unchanged when
the index is out of range. -/
def removeListElement (l : List Val) (idx : Int) : List Val :=
  if 0 ≤ idx ∧ idx.toNat < l.length then l.eraseIdx idx.toNat else l

/-- The removal loop of `SpannerRemove` over the targets, threading the
response map (`oldRes`) and the write map: an `attr[i]` target removes
the indexed element from the list value in the response map and stages
the shortened list into the write map; a plain target deletes the
column from the response map only. -/
def removeTargets (colsToRemove : List String) (st : RowMap × RowMap) :
    RowMap × RowMap :=
  colsToRemove.foldl (fun st target =>
    if target.data.contains '[' ∧ target.data.contains ']' then
      let (listAttr, idx) := parseListRemoveTarget target
      match lookupVal st.1 listAttr with
      | some (.vlist l) =>
        let newList := Val.vlist (removeListElement l idx)
        (upsert st.1 listAttr newList, upsert st.2 listAttr newList)
      | _ => st
    else (removeKey st.1 target, st.2)) st

/-- Model of `SpannerRemove` (the REMOVE update action): in one
read/write transaction evaluates the condition (discarding any
evaluation error and reporting ConditionalCheckFailedException whenever
the status is not true), then for each removal target either removes
the indexed element from the list value held in `oldRes` (also staging
the shortened list into the write map) or deletes the whole column from
`oldRes` only, serialises list values to JSON and buffers an
InsertOrUpdate of the write map.  Returns the new state, the mutated
`oldRes` and the error. -/
def SpannerRemove (g : Globals) (chg : String → String) (db : DB)
    (table : String) (m : RowMap) (eval : EvalMdl)
    (expr : Option UpdateExprCond) (colsToRemove : List String)
    (oldRes : RowMap) : DB × RowMap × Except Err Unit :=
  let outer : Except Err (RowMap × List Mutation) := do
    let tmpMap := m
    let statusTrue :=
      if eval.attributes.length > 0 ∨ expr.isSome then
        match evaluateConditionalExpression g chg db table m eval expr with
        | .ok (st, _) => st
        | .error _ => false
      else true
    if !statusTrue ∧ (eval.attributes.length > 0 ∨ expr.isSome) then
      .error Err.conditionalCheckFailed
    else do
      let (oldRes2, tmp2) := removeTargets colsToRemove (oldRes, tmpMap)
      let tmp3 := serializeLists tmp2
      .ok (oldRes2, [Mutation.insertOrUpdate (chg table) tmp3])
  match outer with
  | .ok (oldRes2, muts) => (muts.foldl (applyMutation g) db, oldRes2, .ok ())
  | .error e => (db, oldRes, .error e)

/-! ### Query planner (`service/services/services.go`) -/

/-- Go `strings.TrimSpace` on character lists. -/
def goTrimSpaceStr (s : Str) : Str :=
  ((s.dropWhile Char.isWhitespace).reverse.dropWhile Char.isWhitespace).reverse

/-- Go `strings.TrimSpace`. -/
def goTrimSpace (s : String) : String := String.mk (goTrimSpaceStr s.data)

/-- Go `strings.Split` on a single-character separator. -/
def splitOnChar (s : Str) (c : Char) : List Str :=
  s.foldr (fun ch acc =>
    match acc with
    | [] => if ch = c then [[], []] else [[ch]]
    | g :: rest => if ch = c then [] :: g :: rest else (ch :: g) :: rest) [[]]

/-- Go `strings.Join` with a single-character separator. -/
def joinChar : List Str → Char → Str
  | [], _ => []
  | [x], _ => x
  | x :: rest, c => x ++ c :: joinChar rest c

/-- Go `strings.Trim(s, ",")`: strip the character from both ends. -/
def trimChar (s : Str) (c : Char) : Str :=
  ((s.dropWhile (fun x => x = c)).reverse.dropWhile (fun x => x = c)).reverse

/-- Query request (`models.Query`), with the expression strings as
character lists. -/
structure QueryMdl where
  tableName : String
  indexName : String
  onlyCount : Bool
  limit : Int
  sortAscending : Bool
  startFrom : Option RowMap
  projectionExpression : String
  expressionAttributeNames : List (String × String)
  filterExp : Str
  rangeExp : Str
  rangeValMap : List (Str × Val)

/-- The name-substitution step of `getSpannerProjections`: split the
projection on commas, trim each entry and apply the name map. -/
def substProjections (projectionExpression : String)
    (expressionAttributeNames : List (String × String)) : List String :=
  (projectionExpression.splitOn ",").map (fun pro =>
    let pro2 := goTrimSpace pro
    match alookup expressionAttributeNames pro2 with
    | some v => v
    | none => pro2)

/-- Model of `getSpannerProjections`: empty projection yields nil,
otherwise the substituted projection intersected with the known column
list of the table. -/
def getSpannerProjections (g : Globals) (chg : String → String)
    (projectionExpression table : String)
    (expressionAttributeNames : List (String × String)) : List String :=
  if projectionExpression = "" then []
  else
    intersectDistinct (substProjections projectionExpression expressionAttributeNames)
      ((alookup g.tableColumnMap (chg table)).getD [])

/-- The append-key-only-if-absent loop of `parseSpannerColumns`. -/
def appendIfAbsent (cols : List String) (c : String) : List String :=
  if c ∈ cols then cols else cols ++ [c]

/-- Model of `parseSpannerColumns`: for a count query a COUNT column;
with a projection, the projected columns plus (when absent) the
resolved partition key, the resolved sort key when one exists, and the
table's real partition key when it differs; otherwise the full column
list.  Also renders the SELECT column text, skipping the reserved
`commit_timestamp` column. -/
def parseSpannerColumns (g : Globals) (chg : String → String) (q : QueryMdl)
    (tPkey pKey sKey : String) : List String × Str × Bool :=
  if q.onlyCount then
    (["count"], "COUNT(".data ++ pKey.data ++ ") AS count".data, true)
  else
    let table := chg q.tableName
    let cols :=
      if q.projectionExpression ≠ "" then
        let c0 := getSpannerProjections g chg q.projectionExpression q.tableName
          q.expressionAttributeNames
        let c1 := appendIfAbsent c0 pKey
        let c2 := if sKey ≠ "" then appendIfAbsent c1 sKey else c1
        if tPkey ≠ pKey then appendIfAbsent c2 tPkey else c2
      else (alookup g.tableColumnMap table).getD []
    let colStr := cols.foldl (fun acc c =>
      if c = "commit_timestamp" then acc
      else acc ++ table.data ++ ".`".data ++ c.data ++ "`,".data) []
    (cols, trimChar colStr ',', false)

/-- Model of `parseSpannerTableName`: appends the FORCE_INDEX hint when
an index is selected. -/
def parseSpannerTableName (chg : String → String) (q : QueryMdl) : Str :=
  let t := (chg q.tableName).data
  if q.indexName ≠ "" then
    t ++ "@\x7bFORCE_INDEX=".data ++ q.indexName.data ++ ['\x7d']
  else t

/-- Modelled from the spec: `utils.ParseBeginsWith` is not under
`src/`.  Per §4.4 the `begins_with` rewriting visible in the planner is
the `STARTS_WITH` substitution performed on the next source line, so
the returned expression is modelled as unchanged. -/
def parseBeginsWith (expression : Str) : Str := expression

/-- Leading identifier character of the planner's JSON-path regexp. -/
def isIdentStart (c : Char) : Bool := c.isAlpha || c = '_'

/-- Character class `[a-zA-Z0-9_.]` of the JSON-path regexp. -/
def isIdentDotChar (c : Char) : Bool := c.isAlphanum || c = '_' || c = '.'

/-- Regexp whitespace class `\s`. -/
def isGoSpace (c : Char) : Bool :=
  c = ' ' || c = '\t' || c = '\n' || c = '\x0d' || c = '\x0c'

/-- Whether the segment contains a `.` immediately followed by an
identifier-start character. -/
def hasDotIdent : Str → Bool
  | '.' :: c :: rest => if isIdentStart c then true else hasDotIdent (c :: rest)
  | _ :: rest => hasDotIdent rest
  | [] => false

/-- Model of the planner's compiled regexp
`^[a-zA-Z_][a-zA-Z0-9_.]*(\.[a-zA-Z_][a-zA-Z0-9_.]*)+\s*=\s*@\w+$`:
a dotted identifier segment (starting with a letter or underscore and
containing at least one dot followed by a letter or underscore — the
meaning of the mandatory `(\.[a-zA-Z_][a-zA-Z0-9_.]*)+` group, since
the `[a-zA-Z0-9_.]*` runs absorb everything else), an `=` between
optional whitespace and an `@`-prefixed word. -/
def jsonPathRegexMatch (s : Str) : Bool :=
  let seg := s.takeWhile isIdentDotChar
  let rest := (s.dropWhile isIdentDotChar).dropWhile isGoSpace
  match seg, rest with
  | c :: _, '=' :: r3 =>
    match r3.dropWhile isGoSpace with
    | '@' :: r5 =>
      isIdentStart c && hasDotIdent seg && decide (r5 ≠ []) && r5.all isWordChar
    | _ => false
  | _, _ => false

/-- The placeholder-substitution loop of `createWhereClause`: every
value-map key contained in the expression is replaced by a fresh
positional parameter `@<queryVar><n>` and its value bound under that
parameter name. -/
def substPlaceholders (queryVar : Str) (vmap : List (Str × Val)) (e : Str)
    (params : List (Str × Val)) : Str × List (Str × Val) :=
  let st := vmap.foldl (fun st kv =>
    if goContains st.1 kv.1 then
      let str := queryVar ++ natDigits st.2.2
      (replaceAll kv.1 ('@' :: str) st.1, (st.2.1 ++ [(str, kv.2)], st.2.2 + 1))
    else st) (e, params, 1)
  (st.1, st.2.1)

/-- Model of `createWhereClause`: rewrites `begins_with` to
`STARTS_WITH`, appends an `AND` separator when the clause already has
content, substitutes positional parameters for the referenced value
placeholders, and either splices the expression or (when it matches the
JSON-path shape) a `JSON_VALUE(...)` rewriting of it.  Returns the
clause, the processed expression and the parameter bindings. -/
def createWhereClause (whereClause expression : Str) (queryVar : Str)
    (rangeValueMap : List (Str × Val)) (params : List (Str × Val)) :
    Str × Str × List (Str × Val) :=
  let e1 := parseBeginsWith expression
  let e2 := replaceAll "begins_with".data "STARTS_WITH".data e1
  let trimmedString := goTrimSpaceStr whereClause
  let wc :=
    if whereClause ≠ "WHERE ".data ∧ ¬ ("AND".data <:+ trimmedString) then
      whereClause ++ " AND ".data
    else whereClause
  let (e3, params2) := substPlaceholders queryVar rangeValueMap e2 params
  if jsonPathRegexMatch e3 then
    let e4 := goTrimSpaceStr e3
    let parts := splitOnChar e4 '='
    let part0 := goTrimSpaceStr (parts.headD [])
    let pathSegs := splitOnChar part0 '.'
    let newExpression :=
      "JSON_VALUE(".data ++ pathSegs.headD [] ++ ", ".data ++ ['\x27'] ++
      "$.".data ++ joinChar pathSegs.tail '.' ++ ['\x27'] ++ ") = ".data ++
      ((parts.drop 1).headD [])
    (wc ++ ' ' :: newExpression, e3, params2)
  else if e3 ≠ [] then (wc ++ e3, e3, params2)
  else (wc, e3, params2)

/-- Model of `parseSpannerCondition`: starts the WHERE clause with
`<sortKey> is not null` when a sort key exists, then splices the
key-condition and filter expressions through `createWhereClause`,
collapsing an untouched clause to a single space. -/
def parseSpannerCondition (q : QueryMdl) (pKey sKey : String) :
    Str × List (Str × Val) :=
  let wc0 := "WHERE ".data
  let wc1 := if sKey ≠ "" then wc0 ++ sKey.data ++ " is not null ".data else wc0
  let r1 :=
    if q.rangeExp ≠ [] then
      createWhereClause wc1 q.rangeExp "rangeExp".data q.rangeValMap []
    else (wc1, q.rangeExp, [])
  let r2 :=
    if q.filterExp ≠ [] then
      createWhereClause r1.1 q.filterExp "filterExp".data q.rangeValMap r1.2.2
    else (r1.1, q.filterExp, r1.2.2)
  let wcF := if r2.1 = "WHERE ".data then [' '] else r2.1
  (wcF, r2.2.2)

/-- Model of `parseOffset`: the OFFSET clause and value from the start
key's `offset` field (a float64, truncated to int64). -/
def parseOffset (q : QueryMdl) : Str × Int :=
  match q.startFrom with
  | some m =>
    (match lookupVal m "offset" with
     | some (.vnum f) =>
       let i : Int := f.num.tdiv (f.den : Int)
       (" OFFSET ".data ++ intDigits i, i)
     | _ => ([], 0))
  | none => ([], 0)

/-- Model of `parseSpannerSorting`. -/
def parseSpannerSorting (q : QueryMdl) (isCountQuery : Bool)
    (pKey sKey : String) : Str :=
  if isCountQuery then [' ']
  else if sKey = "" then [' ']
  else if q.sortAscending then " ORDER BY ".data ++ sKey.data ++ " ASC ".data
  else " ORDER BY ".data ++ sKey.data ++ " DESC ".data

/-- Model of `parseLimit`: count queries carry no LIMIT, a zero limit
becomes the default `LIMIT 5000`, anything else is rendered as is. -/
def parseLimit (q : QueryMdl) (isCountQuery : Bool) : Str :=
  if isCountQuery then []
  else if q.limit = 0 then " LIMIT 5000 ".data
  else " LIMIT ".data ++ intDigits q.limit

/-- One step of FNV-1a (64 bit). -/
def fnv64aStep (h : Nat) (c : Char) : Nat :=
  ((h ^^^ c.toNat) * 1099511628211) % (2 ^ 64)

/-- FNV-1a hash of the SQL text (`hash/fnv.New64a`). -/
def fnv64a (s : Str) : Nat := s.foldl fnv64aStep 14695981039346656037

/-- Model of `createSpannerQuery`: assembles the SELECT statement from
the column, table, WHERE, ORDER BY, LIMIT and OFFSET parts, together
with the parameter bindings, the selected columns, the count flag, the
offset and the statement fingerprint. -/
def createSpannerQuery (g : Globals) (chg : String → String) (q : QueryMdl)
    (tPkey pKey sKey : String) :
    Str × List (Str × Val) × List String × Bool × Int × String :=
  let (cols, colstr, isCountQuery) := parseSpannerColumns g chg q tPkey pKey sKey
  let tableName := parseSpannerTableName chg q
  let (whereCondition, params) := parseSpannerCondition q pKey sKey
  let (offsetString, offset) := parseOffset q
  let orderBy := parseSpannerSorting q isCountQuery pKey sKey
  let limitClause := parseLimit q isCountQuery
  let finalQuery := "SELECT ".data ++ colstr ++ " FROM ".data ++ tableName ++
    [' '] ++ whereCondition ++ orderBy ++ limitClause ++ offsetString
  (finalQuery, params, cols, isCountQuery, offset,
    String.mk (natDigits (fnv64a finalQuery)))

/-- The response-shaping step of `QueryAttributes` on the rows the
backend returned: no rows give an empty page; more rows than the
requested limit (the sentinel was observed) give the first
`originalLimit` rows plus a `LastEvaluatedKey` built from the last
returned row with `offset + originalLimit`; otherwise all rows with a
null `LastEvaluatedKey`. -/
def shapeQueryResponse (originalLimit offset : Int)
    (pKey tPkey sKey tSKey : String) (resp : List RowMap) :
    Int × List RowMap × Option RowMap :=
  let length : Int := resp.length
  if length = 0 then (0, [], none)
  else if length > originalLimit then
    let last := (resp.drop (resp.length - 2)).headD []
    let lek0 := upsert ([] : RowMap) "offset" (.vnum ((originalLimit + offset : Int) : Rat))
    let lek1 := upsert lek0 pKey ((lookupVal last pKey).getD .vnull)
    let lek2 := upsert lek1 tPkey ((lookupVal last tPkey).getD .vnull)
    let lek :=
      if sKey ≠ "" then
        upsert (upsert lek2 sKey ((lookupVal last sKey).getD .vnull)) tSKey
          ((lookupVal last tSKey).getD .vnull)
      else lek2
    (length - 1, resp.take (resp.length - 1), some lek)
  else (length, resp, none)

/-- Query outcome: the shaped response plus the statement the planner
emitted. -/
structure QueryOut where
  count : Int
  items : List RowMap
  lastEvaluatedKey : Option RowMap
  countRow : Option RowMap
  stmt : Str
  params : List (Str × Val)
  fingerprint : String

/-- Model of `QueryAttributes`: resolves the partition/sort keys (from
the index config when an index is requested, falling back to the table
keys when the index has no partition key), raises the limit by one
sentinel row, builds the statement, and shapes the rows the backend
returned (`resp` stands for the backend execution of the emitted
statement). -/
def QueryAttributes (g : Globals) (chg : String → String) (q : QueryMdl)
    (resp : List RowMap) : Except Err QueryOut := do
  let tableConf ← match alookup g.tableConf q.tableName with
    | none => .error Err.resourceNotFound
    | some c => .ok c
  let tPKey := tableConf.partitionKey
  let tSKey := tableConf.sortKey
  let (q1, pKey0, sKey0) :=
    if q.indexName ≠ "" then
      let conf := (alookup tableConf.indices q.indexName).getD ("", "")
      let qa := QueryMdl.mk
        (if tableConf.actualTable ≠ q.tableName then tableConf.actualTable else q.tableName)
        (String.mk (replaceAll "-".data "_".data q.indexName.data))
        q.onlyCount q.limit q.sortAscending q.startFrom q.projectionExpression
        q.expressionAttributeNames q.filterExp q.rangeExp q.rangeValMap
      (qa, conf.1, conf.2)
    else (q, tableConf.partitionKey, tableConf.sortKey)
  let (pKey, sKey) := if pKey0 = "" then (tPKey, tSKey) else (pKey0, sKey0)
  let originalLimit := q1.limit
  let q2 := QueryMdl.mk q1.tableName q1.indexName q1.onlyCount
    (originalLimit + 1) q1.sortAscending q1.startFrom q1.projectionExpression
    q1.expressionAttributeNames q1.filterExp q1.rangeExp q1.rangeValMap
  let (stmt, params, cols, isCountQuery, offset, fp) :=
    createSpannerQuery g chg q2 tPKey pKey sKey
  if isCountQuery then
    .ok (QueryOut.mk 0 [] none (some (resp.headD [])) stmt params fp)
  else
    let (count, items, lek) :=
      shapeQueryResponse originalLimit offset pKey tPKey sKey tSKey resp
    .ok (QueryOut.mk count items lek none stmt params fp)

/-- Scan request (`models.ScanMeta`), restricted to the fields `Scan`
copies into the query. -/
structure ScanMdl where
  tableName : String
  indexName : String
  onlyCount : Bool
  limit : Int
  startFrom : Option RowMap
  expressionAttributeMap : List (Str × Val)
  filterExpression : Str
  expressionAttributeNames : List (String × String)
  projectionExpression : String

/-- Model of `Scan`: builds a `Query` with a zero caller limit replaced
by the configured query limit, substitutes the attribute names inside
the filter expression, and delegates to `QueryAttributes`. -/
def Scan (g : Globals) (chg : String → String) (scanData : ScanMdl)
    (resp : List RowMap) : Except Err QueryOut :=
  let lim := if scanData.limit = 0 then g.queryLimit else scanData.limit
  let fexp := scanData.expressionAttributeNames.foldl
    (fun e kv => replaceAll kv.1.data kv.2.data e) scanData.filterExpression
  let q := QueryMdl.mk scanData.tableName scanData.indexName scanData.onlyCount
    lim false scanData.startFrom scanData.projectionExpression
    scanData.expressionAttributeNames fexp [] scanData.expressionAttributeMap
  QueryAttributes g chg q resp

/-- Concrete single-table fixture with a sort key, used by witnesses. -/
def gSorted : Globals :=
  Globals.mk [("t", [("id", "S"), ("sk", "S"), ("c", "S")])]
    [("t", ["id", "sk", "c"])] [("t", TableConf.mk "id" "sk" "t" [])] 5000

/-- Concrete single-table fixture without a sort key, used by witnesses. -/
def gPlain : Globals :=
  Globals.mk [("t", [("id", "S"), ("c", "S"), ("lst", "L")])]
    [("t", ["id", "c", "lst"])] [("t", TableConf.mk "id" "" "t" [])] 5000

/-- Concrete empty backend holding the plain table, used by witnesses. -/
def dbPlain : DB := [("t", TableData.mk "id" "" [])]

/-- Concrete compiled condition used by witnesses: a single
attribute_exists(c) test whose result is bound to token tok1. -/
def evalExists : EvalMdl :=
  EvalMdl.mk (fun vm => match alookup vm "tok1" with
    | some (.sbool b) => .ok b
    | _ => .error Err.validationException)
    ["attribute_exists"] ["c"] ["tok1"] []

/-- Concrete no-op condition (no attributes), used by witnesses. -/
def evalNone : EvalMdl := EvalMdl.mk (fun _ => .ok true) [] [] [] []

/-- Separation of two placeholder tokens: the first does not occur in
the second, and no nonempty suffix of the second is a prefix of the
first (so an occurrence of the first cannot overlap a replaced
occurrence of the second). -/
def tokensIndependent (k k2 : Str) : Prop :=
  ¬ k <:+: k2 ∧ ∀ x, x ≠ [] → x <:+ k2 → ¬ x <+: k

/-! ### Theorems -/

theorem goHasPrefix_exclusive {s : String} {p1 p2 : String}
    (h : goHasPrefix s p1 = true)
    (hnp1 : ¬ (p1.data <+: p2.data)) (hnp2 : ¬ (p2.data <+: p1.data)) :
    goHasPrefix s p2 = false := by
  simp only [goHasPrefix, decide_eq_true_eq] at h
  simp only [goHasPrefix, decide_eq_false_iff_not]
  intro h2
  rcases List.prefix_or_prefix_of_prefix h h2 with hc | hc
  · exact hnp1 hc
  · exact hnp2 hc

/-- C9: `parseRow` on a nil backend row returns an empty map and no
error; consequently a transactional point-read that finds no row
produces an empty condition snapshot instead of an error. -/
theorem parseRow_nil_gives_empty_snapshot :
    (∀ colDDL, parseRow none colDDL = .ok ([], [])) ∧
    (∀ db table pk sk keyP keyS cols,
      findRow db table pk sk keyP keyS = none →
      condSnapshot db table pk sk keyP keyS cols = []) := by
  refine ⟨fun colDDL => rfl, fun db table pk sk keyP keyS cols h => ?_⟩
  simp [condSnapshot, h]

theorem parseRow_nil_gives_empty_snapshot_witness :
    parseRow none [("a", "S")] = .ok ([], []) ∧
    condSnapshot [] "t" "p" "s" .vnull none [] = [] :=
  ⟨parseRow_nil_gives_empty_snapshot.1 [("a", "S")],
   parseRow_nil_gives_empty_snapshot.2 [] "t" "p" "s" .vnull none [] rfl⟩

/-- C4 counterexample: a NULL `S` column parses into a snapshot that
holds the column key with a nil value, and `attribute_exists` on that
snapshot returns true even though the value is null — refuting the
claim that `attribute_exists` is true only for present *non-null*
values. -/
theorem attribute_exists_null_value_counterexample :
    parseRow (some [("c", Cell.nullString none)]) [("c", "S")] =
      .ok ([("c", Val.vnull)], []) ∧
    evaluateStatementFromRowMap "attribute_exists(c)" "c" [("c", Val.vnull)] =
      .sbool true ∧
    lookupVal [("c", Val.vnull)] "c" = some Val.vnull :=
  ⟨rfl, rfl, rfl⟩

/-- C4 (amended): `attribute_exists` is true iff the column key is
present in the snapshot — a null value still counts as present;
`attribute_not_exists` is its complement; and on an empty snapshot
`attribute_not_exists` is true and `attribute_exists` false. -/
theorem attribute_exists_presence_semantics (cexp col : String) (rowMap : RowMap) :
    (goHasPrefix cexp "attribute_exists" = true →
      evaluateStatementFromRowMap cexp col rowMap =
        .sbool (lookupVal rowMap col).isSome) ∧
    (goHasPrefix cexp "attribute_not_exists" = true →
      evaluateStatementFromRowMap cexp col rowMap =
        .sbool (lookupVal rowMap col).isNone) ∧
    (rowMap = [] →
      (goHasPrefix cexp "attribute_not_exists" = true →
        evaluateStatementFromRowMap cexp col rowMap = .sbool true) ∧
      (goHasPrefix cexp "attribute_exists" = true →
        evaluateStatementFromRowMap cexp col rowMap = .sbool false)) := by
  have hae : goHasPrefix cexp "attribute_exists" = true →
      evaluateStatementFromRowMap cexp col rowMap =
        .sbool (lookupVal rowMap col).isSome := by
    intro h
    have c1 : goHasPrefix cexp "attribute_not_exists" = false :=
      goHasPrefix_exclusive h (by decide) (by decide)
    have c2 : goHasPrefix cexp "if_not_exists" = false :=
      goHasPrefix_exclusive h (by decide) (by decide)
    unfold evaluateStatementFromRowMap
    rw [c1, c2, h]
    simp only [Bool.false_eq_true, or_self, if_false, if_true, true_or]
    cases rowMap with
    | nil => simp [lookupVal]
    | cons hd tl => simp [List.isEmpty]
  have hane : goHasPrefix cexp "attribute_not_exists" = true →
      evaluateStatementFromRowMap cexp col rowMap =
        .sbool (lookupVal rowMap col).isNone := by
    intro h
    unfold evaluateStatementFromRowMap
    rw [h]
    simp only [true_or, if_true]
    cases rowMap with
    | nil => simp [lookupVal]
    | cons hd tl => simp [List.isEmpty]
  refine ⟨hae, hane, fun he => ⟨fun h => ?_, fun h => ?_⟩⟩
  · rw [hane h, he]
    simp [lookupVal]
  · rw [hae h, he]
    simp [lookupVal]

theorem attribute_exists_presence_semantics_witness :
    evaluateStatementFromRowMap "attribute_exists(c)" "c" [("c", Val.vnull)] =
      .sbool (lookupVal [("c", Val.vnull)] "c").isSome ∧
    evaluateStatementFromRowMap "attribute_not_exists(c)" "c" [] = .sbool true :=
  ⟨(attribute_exists_presence_semantics "attribute_exists(c)" "c"
      [("c", Val.vnull)]).1 (by decide),
   ((attribute_exists_presence_semantics "attribute_not_exists(c)" "c" []).2.2
      rfl).1 (by decide)⟩

/-- C6 counterexample: the string-typed value `"dHJ1ZQ=="` (base64 of
the JSON payload `true`) is silently re-decoded: `parseStringColumn`
returns the decoded boolean, and `processDecodedData` replaces the
string by the decoded JSON — refuting the claim that strings matching
the base64 alphabet with `=` padding are never re-decoded. -/
theorem base64_string_redecoded_counterexample :
    parseStringColumn (Cell.nullString (some "dHJ1ZQ==")) "c" [] =
      .ok [("c", Val.vbool true)] ∧
    processDecodedData (.vstr "dHJ1ZQ==") = .vbool true ∧
    Val.vbool true ≠ Val.vstr "dHJ1ZQ==" :=
  ⟨rfl, rfl, nofun⟩

/-- C6 (amended): a string column value is returned as-is only when it
does not end in `=` or fails the base64 shape test, and a string not
matching the base64 regexp survives `processDecodedData` unchanged;
strings passing both tests are re-decoded through the bytes path, as
witnessed on `"dHJ1ZQ=="`. -/
theorem string_column_base64_redecoding :
    (∀ (s col : String) (row : RowMap),
      ¬ (goHasSuffix s "=" = true ∧ isValidBase64 s = true) →
      parseStringColumn (Cell.nullString (some s)) col row =
        .ok (upsert row col (.vstr s))) ∧
    (∀ s : String, base64RegexpMatch s.data = false →
      processDecodedData (.vstr s) = .vstr s) ∧
    processDecodedData (.vstr "dHJ1ZQ==") = .vbool true := by
  refine ⟨fun s col row h => ?_, fun s h => ?_, rfl⟩
  · simp only [parseStringColumn]
    rw [if_neg (by simpa using h)]
  · simp [processDecodedData, decodeB64Json, h]

theorem string_column_base64_redecoding_witness :
    parseStringColumn (Cell.nullString (some "abc")) "c" [] =
      .ok [("c", Val.vstr "abc")] ∧
    processDecodedData (.vstr "a-b") = .vstr "a-b" :=
  ⟨string_column_base64_redecoding.1 "abc" "c" [] (by decide),
   string_column_base64_redecoding.2.1 "a-b" (by decide)⟩

theorem parseSpannerColumns_count_flag (g : Globals) (chg : String → String)
    (q : QueryMdl) (t p s : String) (h : q.onlyCount = false) :
    (parseSpannerColumns g chg q t p s).2.2 = false := by
  simp [parseSpannerColumns, h]

theorem createSpannerQuery_parts (g : Globals) (chg : String → String)
    (q : QueryMdl) (t p s : String) (h : q.onlyCount = false) :
    (createSpannerQuery g chg q t p s).2.2.2.1 = false ∧
    (createSpannerQuery g chg q t p s).2.2.2.2.1 = (parseOffset q).2 ∧
    ∃ stmtPre, (createSpannerQuery g chg q t p s).1 =
      stmtPre ++ parseLimit q false ++ (parseOffset q).1 := by
  unfold createSpannerQuery
  simp only [parseSpannerColumns_count_flag g chg q t p s h]
  exact ⟨trivial, trivial, _, rfl⟩

theorem QueryAttributes_resolved
    (g : Globals) (chg : String → String) (q : QueryMdl) (conf : TableConf)
    (resp : List RowMap)
    (hconf : alookup g.tableConf q.tableName = some conf)
    (hidx : q.indexName = "") (hcount : q.onlyCount = false)
    (hpk : conf.partitionKey ≠ "") :
    ∃ stmtPre params fp,
      QueryAttributes g chg q resp = .ok (QueryOut.mk
        (shapeQueryResponse q.limit (parseOffset q).2 conf.partitionKey
          conf.partitionKey conf.sortKey conf.sortKey resp).1
        (shapeQueryResponse q.limit (parseOffset q).2 conf.partitionKey
          conf.partitionKey conf.sortKey conf.sortKey resp).2.1
        (shapeQueryResponse q.limit (parseOffset q).2 conf.partitionKey
          conf.partitionKey conf.sortKey conf.sortKey resp).2.2
        none
        (stmtPre ++ (if q.limit + 1 = 0 then " LIMIT 5000 ".data
          else " LIMIT ".data ++ intDigits (q.limit + 1)) ++ (parseOffset q).1)
        params fp) := by
  unfold QueryAttributes
  rw [hconf]
  simp only [bind, Except.bind]
  rw [hidx]
  simp only [ne_eq, not_true_eq_false, if_false, ite_false, if_neg hpk]
  have hcount2 : (QueryMdl.mk q.tableName q.indexName q.onlyCount (q.limit + 1)
      q.sortAscending q.startFrom q.projectionExpression
      q.expressionAttributeNames q.filterExp q.rangeExp q.rangeValMap).onlyCount
      = false := hcount
  obtain ⟨h1, h2, stmtPre, h3⟩ := createSpannerQuery_parts g chg _
    conf.partitionKey conf.partitionKey conf.sortKey hcount2
  rw [h1]
  simp only [Bool.false_eq_true, if_false, ite_false]
  refine ⟨stmtPre, (createSpannerQuery g chg (QueryMdl.mk q.tableName q.indexName
      q.onlyCount (q.limit + 1) q.sortAscending q.startFrom
      q.projectionExpression q.expressionAttributeNames q.filterExp
      q.rangeExp q.rangeValMap) conf.partitionKey conf.partitionKey
      conf.sortKey).2.1, (createSpannerQuery g chg (QueryMdl.mk q.tableName q.indexName
      q.onlyCount (q.limit + 1) q.sortAscending q.startFrom
      q.projectionExpression q.expressionAttributeNames q.filterExp
      q.rangeExp q.rangeValMap) conf.partitionKey conf.partitionKey
      conf.sortKey).2.2.2.2.2, ?_⟩
  rw [h3, h2]
  simp [parseLimit, parseOffset]

theorem lookupVal_upsert (m : RowMap) (k k2 : String) (v : Val) :
    lookupVal (upsert m k v) k2 = if k = k2 then some v else lookupVal m k2 := by
  induction m with
  | nil => by_cases h : k = k2 <;> simp [upsert, lookupVal, h]
  | cons hd tl ih =>
    obtain ⟨k3, w⟩ := hd
    unfold upsert
    by_cases h3 : k3 = k
    · subst h3
      simp only [if_pos rfl]
      by_cases h : k3 = k2 <;> simp [lookupVal, h]
    · simp only [if_neg h3]
      unfold lookupVal
      by_cases h2 : k3 = k2
      · subst h2
        have hk : ¬ k = k3 := fun hh => h3 hh.symm
        simp [hk]
      · simp [h2, ih]

theorem shapeQueryResponse_under (L O : Int) (pk tp sk ts : String)
    (resp : List RowMap) (h : (resp.length : Int) ≤ L) :
    shapeQueryResponse L O pk tp sk ts resp = ((resp.length : Int), resp, none) := by
  unfold shapeQueryResponse
  by_cases h0 : (resp.length : Int) = 0
  · have hr : resp = [] := List.length_eq_zero.mp (by exact_mod_cast h0)
    subst hr
    simp
  · rw [if_neg h0, if_neg (show ¬ ((resp.length : Int) > L) by omega)]

theorem take_pred_getLast (resp : List RowMap) (h : 2 ≤ resp.length) :
    (resp.take (resp.length - 1)).getLast? =
      some ((resp.drop (resp.length - 2)).headD []) := by
  have hlt : resp.length - 2 < resp.length := by omega
  have h1 : (resp.take (resp.length - 1)).getLast? = some (resp[resp.length - 2]) := by
    rw [List.getLast?_eq_getElem?]
    have hlen : (resp.take (resp.length - 1)).length = resp.length - 1 := by
      simp only [List.length_take]
      omega
    rw [hlen, List.getElem?_take, if_pos (by omega)]
    have h12 : resp.length - 1 - 1 = resp.length - 2 := by omega
    rw [h12, List.getElem?_eq_getElem hlt]
  have h2 : (resp.drop (resp.length - 2)).headD [] = resp[resp.length - 2] := by
    rw [List.headD_eq_head?_getD, List.head?_drop, List.getElem?_eq_getElem hlt]
    rfl
  rw [h1, h2]

theorem shapeQueryResponse_sentinel (L O : Int) (pk tp sk ts : String)
    (resp : List RowMap) (hL : 0 < L) (h : (resp.length : Int) = L + 1)
    (hpko : pk ≠ "offset") (htpo : tp ≠ "offset")
    (hsko : sk ≠ "offset") (htso : ts ≠ "offset") :
    ∃ lek,
      shapeQueryResponse L O pk tp sk ts resp =
        (L, resp.take (resp.length - 1), some lek) ∧
      lookupVal lek "offset" = some (.vnum ((L + O : Int) : Rat)) ∧
      (sk ≠ pk → ts ≠ pk →
        lookupVal lek pk =
          some ((lookupVal ((resp.drop (resp.length - 2)).headD []) pk).getD .vnull)) := by
  unfold shapeQueryResponse
  rw [if_neg (show ¬ ((resp.length : Int) = 0) by omega),
      if_pos (show (resp.length : Int) > L by omega)]
  dsimp only
  have hc : (resp.length : Int) - 1 = L := by omega
  rw [hc]
  refine ⟨_, rfl, ?_, ?_⟩
  · by_cases hsk : sk ≠ "" <;>
      simp [hsk, lookupVal_upsert, hpko, htpo, hsko, htso, Ne.symm hpko,
        Ne.symm htpo, Ne.symm hsko, Ne.symm htso, upsert, lookupVal]
  · intro hskpk htspk
    by_cases hsk : sk ≠ "" <;>
      by_cases htp : tp = pk
    · simp [hsk, htp, lookupVal_upsert, hpko, htpo, hsko, htso, hskpk, htspk,
        Ne.symm hpko, Ne.symm htpo, Ne.symm hsko, Ne.symm htso,
        Ne.symm hskpk, Ne.symm htspk, upsert, lookupVal]
    · simp [hsk, htp, Ne.symm htp, lookupVal_upsert, hpko, htpo, hsko, htso,
        hskpk, htspk, Ne.symm hpko, Ne.symm htpo, Ne.symm hsko, Ne.symm htso,
        Ne.symm hskpk, Ne.symm htspk, upsert, lookupVal]
    · simp [hsk, htp, lookupVal_upsert, hpko, htpo, hsko, htso, hskpk, htspk,
        Ne.symm hpko, Ne.symm htpo, Ne.symm hsko, Ne.symm htso,
        Ne.symm hskpk, Ne.symm htspk, upsert, lookupVal]
    · simp [hsk, htp, Ne.symm htp, lookupVal_upsert, hpko, htpo, hsko, htso,
        hskpk, htspk, Ne.symm hpko, Ne.symm htpo, Ne.symm hsko, Ne.symm htso,
        Ne.symm hskpk, Ne.symm htspk, upsert, lookupVal]

theorem query_pagination_contract
    (g : Globals) (chg : String → String) (q : QueryMdl) (conf : TableConf)
    (resp : List RowMap) (L : Int)
    (hconf : alookup g.tableConf q.tableName = some conf)
    (hidx : q.indexName = "") (hcount : q.onlyCount = false)
    (hpk : conf.partitionKey ≠ "") (hL : q.limit = L) (hLpos : 0 < L)
    (hpko : conf.partitionKey ≠ "offset") (hsko : conf.sortKey ≠ "offset")
    (hsp : conf.sortKey ≠ conf.partitionKey) :
    ∃ out, QueryAttributes g chg q resp = .ok out ∧
      (∃ stmtPre, out.stmt =
        stmtPre ++ (" LIMIT ".data ++ intDigits (L + 1)) ++ (parseOffset q).1) ∧
      ((resp.length : Int) < L →
        out.lastEvaluatedKey = none ∧ out.items = resp ∧
        out.count = (resp.length : Int)) ∧
      ((resp.length : Int) = L + 1 →
        ∃ lek last, out.lastEvaluatedKey = some lek ∧ out.count = L ∧
          out.items = resp.take (resp.length - 1) ∧
          out.items.getLast? = some last ∧
          lookupVal lek "offset" =
            some (.vnum ((L + (parseOffset q).2 : Int) : Rat)) ∧
          lookupVal lek conf.partitionKey =
            some ((lookupVal last conf.partitionKey).getD .vnull)) := by
  obtain ⟨stmtPre, params, fp, hout⟩ :=
    QueryAttributes_resolved g chg q conf resp hconf hidx hcount hpk
  subst hL
  refine ⟨_, hout, ⟨stmtPre, ?_⟩, ?_, ?_⟩
  · dsimp only
    rw [if_neg (show ¬ (q.limit + 1 = 0) by omega)]
  · intro hlt
    have hshape := shapeQueryResponse_under q.limit (parseOffset q).2
      conf.partitionKey conf.partitionKey conf.sortKey conf.sortKey resp (by omega)
    dsimp only
    rw [hshape]
    exact ⟨rfl, rfl, rfl⟩
  · intro heq
    have h2r : 2 ≤ resp.length := by omega
    obtain ⟨lek, hs, hoff, hpkl⟩ := shapeQueryResponse_sentinel q.limit
      (parseOffset q).2 conf.partitionKey conf.partitionKey conf.sortKey
      conf.sortKey resp hLpos heq hpko hpko hsko hsko
    refine ⟨lek, (resp.drop (resp.length - 2)).headD [], ?_, ?_, ?_, ?_, hoff,
      hpkl hsp hsp⟩
    · dsimp only
      rw [hs]
    · dsimp only
      rw [hs]
    · dsimp only
      rw [hs]
    · dsimp only
      rw [hs]
      exact take_pred_getLast resp h2r


/-- C2 witness at a concrete query: limit 2, offset 5, three returned
rows (the sentinel), checked through the theorem. -/
theorem query_pagination_contract_witness :
    ∃ out, QueryAttributes gSorted (fun s => s)
        (QueryMdl.mk "t" "" false 2 false (some [("offset", Val.vnum 5)])
          "" [] [] [] [])
        [[("id", Val.vstr "a"), ("sk", Val.vstr "x")],
         [("id", Val.vstr "b"), ("sk", Val.vstr "y")],
         [("id", Val.vstr "d"), ("sk", Val.vstr "z")]] = .ok out ∧
      (∃ stmtPre, out.stmt =
        stmtPre ++ (" LIMIT ".data ++ intDigits (2 + 1)) ++
          (parseOffset (QueryMdl.mk "t" "" false 2 false
            (some [("offset", Val.vnum 5)]) "" [] [] [] [])).1) ∧
      ((([[("id", Val.vstr "a"), ("sk", Val.vstr "x")],
          [("id", Val.vstr "b"), ("sk", Val.vstr "y")],
          [("id", Val.vstr "d"), ("sk", Val.vstr "z")]] : List RowMap).length : Int) < 2 →
        out.lastEvaluatedKey = none ∧
        out.items = [[("id", Val.vstr "a"), ("sk", Val.vstr "x")],
          [("id", Val.vstr "b"), ("sk", Val.vstr "y")],
          [("id", Val.vstr "d"), ("sk", Val.vstr "z")]] ∧
        out.count = (([[("id", Val.vstr "a"), ("sk", Val.vstr "x")],
          [("id", Val.vstr "b"), ("sk", Val.vstr "y")],
          [("id", Val.vstr "d"), ("sk", Val.vstr "z")]] : List RowMap).length : Int)) ∧
      ((([[("id", Val.vstr "a"), ("sk", Val.vstr "x")],
          [("id", Val.vstr "b"), ("sk", Val.vstr "y")],
          [("id", Val.vstr "d"), ("sk", Val.vstr "z")]] : List RowMap).length : Int) = 2 + 1 →
        ∃ lek last, out.lastEvaluatedKey = some lek ∧ out.count = 2 ∧
          out.items = ([[("id", Val.vstr "a"), ("sk", Val.vstr "x")],
            [("id", Val.vstr "b"), ("sk", Val.vstr "y")],
            [("id", Val.vstr "d"), ("sk", Val.vstr "z")]] : List RowMap).take
              (([[("id", Val.vstr "a"), ("sk", Val.vstr "x")],
                [("id", Val.vstr "b"), ("sk", Val.vstr "y")],
                [("id", Val.vstr "d"), ("sk", Val.vstr "z")]] : List RowMap).length - 1) ∧
          out.items.getLast? = some last ∧
          lookupVal lek "offset" =
            some (.vnum ((2 + (parseOffset (QueryMdl.mk "t" "" false 2 false
              (some [("offset", Val.vnum 5)]) "" [] [] [] [])).2 : Int) : Rat)) ∧
          lookupVal lek "id" = some ((lookupVal last "id").getD .vnull)) :=
  query_pagination_contract gSorted (fun s => s) _ (TableConf.mk "id" "sk" "t" [])
    _ 2 rfl rfl rfl (by decide) rfl (by decide) (by decide) (by decide) (by decide)

/-- C5 counterexample: with a caller-supplied limit of 0 the Query path
emits `LIMIT 1` (the sentinel increment applies before `parseLimit`)
and the Scan path emits the configured query limit plus one (`LIMIT
5001` for the configured 5000) — in neither case does the statement
carry the claimed default `LIMIT 5000`. -/
theorem limit_default_counterexample :
    (match QueryAttributes gPlain (fun s => s)
        (QueryMdl.mk "t" "" false 0 false none "" [] [] [] []) [] with
     | .ok out => out.stmt
     | .error _ => []) = "SELECT t.`id`,t.`c`,t.`lst` FROM t    LIMIT 1".data ∧
    (match Scan gPlain (fun s => s)
        (ScanMdl.mk "t" "" false 0 none [] [] [] "") [] with
     | .ok out => out.stmt
     | .error _ => []) = "SELECT t.`id`,t.`c`,t.`lst` FROM t    LIMIT 5001".data ∧
    ¬ (" LIMIT 5000".data <:+: "SELECT t.`id`,t.`c`,t.`lst` FROM t    LIMIT 1".data) ∧
    ¬ (" LIMIT 5000".data <:+: "SELECT t.`id`,t.`c`,t.`lst` FROM t    LIMIT 5001".data) := by
  refine ⟨rfl, rfl, by decide, by decide⟩

/-- C5 (amended): the `LIMIT 5000` default lives in `parseLimit` and
fires only when the limit reaching it is 0; on the Query path a
caller-supplied 0 becomes `LIMIT 1` after the sentinel increment, and
on the Scan path a caller-supplied 0 is first replaced by the
configured query limit `Q` and the statement carries `LIMIT Q+1`. -/
theorem limit_default_contract :
    (∀ qq : QueryMdl, qq.limit = 0 → parseLimit qq false = " LIMIT 5000 ".data) ∧
    (∀ (g : Globals) (chg : String → String) (q : QueryMdl) (conf : TableConf)
      (resp : List RowMap),
      alookup g.tableConf q.tableName = some conf → q.indexName = "" →
      q.onlyCount = false → conf.partitionKey ≠ "" → q.limit = 0 →
      ∃ out stmtPre, QueryAttributes g chg q resp = .ok out ∧
        out.stmt = stmtPre ++ (" LIMIT ".data ++ intDigits 1) ++ (parseOffset q).1) ∧
    (∀ (g : Globals) (chg : String → String) (scanData : ScanMdl)
      (conf : TableConf) (resp : List RowMap),
      alookup g.tableConf scanData.tableName = some conf →
      scanData.indexName = "" → scanData.onlyCount = false →
      conf.partitionKey ≠ "" → scanData.limit = 0 → g.queryLimit + 1 ≠ 0 →
      ∃ out stmtPre offPart, Scan g chg scanData resp = .ok out ∧
        out.stmt = stmtPre ++ (" LIMIT ".data ++ intDigits (g.queryLimit + 1)) ++ offPart) := by
  refine ⟨fun qq h => ?_, fun g chg q conf resp hconf hidx hcount hpk hl => ?_,
    fun g chg scanData conf resp hconf hidx hcount hpk hl hql => ?_⟩
  · simp [parseLimit, h]
  · obtain ⟨stmtPre, params, fp, hout⟩ :=
      QueryAttributes_resolved g chg q conf resp hconf hidx hcount hpk
    rw [hl] at hout
    refine ⟨_, stmtPre, hout, ?_⟩
    norm_num
  · have hq : Scan g chg scanData resp =
        QueryAttributes g chg (QueryMdl.mk scanData.tableName
          scanData.indexName scanData.onlyCount g.queryLimit false
          scanData.startFrom scanData.projectionExpression
          scanData.expressionAttributeNames
          (scanData.expressionAttributeNames.foldl
            (fun e kv => replaceAll kv.1.data kv.2.data e)
            scanData.filterExpression)
          [] scanData.expressionAttributeMap) resp := by
      unfold Scan
      rw [hl]
      rfl
    obtain ⟨stmtPre, params, fp, hout⟩ :=
      QueryAttributes_resolved g chg (QueryMdl.mk scanData.tableName
        scanData.indexName scanData.onlyCount g.queryLimit false
        scanData.startFrom scanData.projectionExpression
        scanData.expressionAttributeNames
        (scanData.expressionAttributeNames.foldl
          (fun e kv => replaceAll kv.1.data kv.2.data e) scanData.filterExpression)
        [] scanData.expressionAttributeMap) conf resp hconf hidx hcount hpk
    rw [hq]
    refine ⟨_, stmtPre,
      (parseOffset (QueryMdl.mk scanData.tableName
        scanData.indexName scanData.onlyCount g.queryLimit false
        scanData.startFrom scanData.projectionExpression
        scanData.expressionAttributeNames
        (scanData.expressionAttributeNames.foldl
          (fun e kv => replaceAll kv.1.data kv.2.data e) scanData.filterExpression)
        [] scanData.expressionAttributeMap)).1, hout, ?_⟩
    dsimp only
    rw [if_neg hql]

theorem limit_default_contract_witness :
    parseLimit (QueryMdl.mk "t" "" false 0 false none "" [] [] [] []) false =
      " LIMIT 5000 ".data ∧
    (∃ out stmtPre, QueryAttributes gPlain (fun s => s)
        (QueryMdl.mk "t" "" false 0 false none "" [] [] [] []) [] = .ok out ∧
      out.stmt = stmtPre ++ (" LIMIT ".data ++ intDigits 1) ++
        (parseOffset (QueryMdl.mk "t" "" false 0 false none "" [] [] [] [])).1) ∧
    (∃ out stmtPre offPart, Scan gPlain (fun s => s)
        (ScanMdl.mk "t" "" false 0 none [] [] [] "") [] = .ok out ∧
      out.stmt = stmtPre ++ (" LIMIT ".data ++ intDigits (gPlain.queryLimit + 1)) ++ offPart) :=
  ⟨limit_default_contract.1 _ rfl,
   limit_default_contract.2.1 gPlain (fun s => s) _ (TableConf.mk "id" "" "t" [])
     [] rfl rfl rfl (by decide) rfl,
   limit_default_contract.2.2 gPlain (fun s => s) _ (TableConf.mk "id" "" "t" [])
     [] rfl rfl rfl (by decide) rfl (by decide)⟩

theorem mem_intersectDistinct_aux (ys : List String) (x : String) :
    ∀ (xs acc : List String),
      x ∈ xs.foldl (fun acc x => if x ∈ ys ∧ x ∉ acc then acc ++ [x] else acc) acc ↔
        x ∈ acc ∨ (x ∈ xs ∧ x ∈ ys) := by
  intro xs
  induction xs with
  | nil => intro acc; simp
  | cons hd tl ih =>
    intro acc
    simp only [List.foldl_cons]
    rw [ih]
    by_cases hy : hd ∈ ys ∧ hd ∉ acc
    · rw [if_pos hy]
      simp only [List.mem_append, List.mem_cons, List.not_mem_nil, or_false]
      constructor
      · rintro (⟨h | h⟩ | h)
        · exact Or.inl h
        · exact Or.inr ⟨Or.inl h, h ▸ hy.1⟩
        · exact Or.inr ⟨Or.inr h.1, h.2⟩
      · rintro (h | ⟨h | h, hy2⟩)
        · exact Or.inl (Or.inl h)
        · exact Or.inl (Or.inr h)
        · exact Or.inr ⟨h, hy2⟩
    · rw [if_neg hy]
      simp only [List.mem_cons]
      constructor
      · rintro (h | h)
        · exact Or.inl h
        · exact Or.inr ⟨Or.inr h.1, h.2⟩
      · rintro (h | ⟨h | h, hy2⟩)
        · exact Or.inl h
        · subst h
          rcases not_and_or.mp hy with h | h
          · exact absurd hy2 h
          · exact Or.inl (not_not.mp h)
        · exact Or.inr ⟨h, hy2⟩

theorem mem_intersectDistinct (xs ys : List String) (x : String) :
    x ∈ intersectDistinct xs ys ↔ x ∈ xs ∧ x ∈ ys := by
  unfold intersectDistinct
  rw [mem_intersectDistinct_aux]
  simp

theorem nodup_intersectDistinct_aux (ys : List String) :
    ∀ (xs acc : List String), acc.Nodup →
      (xs.foldl (fun acc x => if x ∈ ys ∧ x ∉ acc then acc ++ [x] else acc) acc).Nodup := by
  intro xs
  induction xs with
  | nil => intro acc h; simpa
  | cons hd tl ih =>
    intro acc h
    simp only [List.foldl_cons]
    by_cases hy : hd ∈ ys ∧ hd ∉ acc
    · rw [if_pos hy]
      exact ih _ (by simp [List.nodup_append, h, hy.2])
    · rw [if_neg hy]
      exact ih _ h

theorem nodup_intersectDistinct (xs ys : List String) :
    (intersectDistinct xs ys).Nodup :=
  nodup_intersectDistinct_aux ys xs [] List.nodup_nil

theorem mem_appendIfAbsent (cols : List String) (c x : String) :
    x ∈ appendIfAbsent cols c ↔ x ∈ cols ∨ x = c := by
  unfold appendIfAbsent
  by_cases h : c ∈ cols
  · rw [if_pos h]
    constructor
    · exact Or.inl
    · rintro (hx | hx)
      · exact hx
      · exact hx ▸ h
  · rw [if_neg h]
    simp

theorem nodup_appendIfAbsent (cols : List String) (c : String)
    (h : cols.Nodup) : (appendIfAbsent cols c).Nodup := by
  unfold appendIfAbsent
  by_cases hc : c ∈ cols
  · rw [if_pos hc]; exact h
  · rw [if_neg hc]
    simp [List.nodup_append, h, hc]
/-- C3: with a non-empty projection the selected column set is the
name-substituted projection intersected with the table's declared
columns, together with the resolved partition key, the resolved sort
key when one exists and the table's real partition key when it differs
from the resolved one; each key column is appended only when absent,
so the final list is duplicate-free. -/
theorem projection_columns_contract (g : Globals) (chg : String → String)
    (q : QueryMdl) (tPkey pKey sKey : String) (columns : List String)
    (hcount : q.onlyCount = false) (hproj : q.projectionExpression ≠ "")
    (hcols : alookup g.tableColumnMap (chg q.tableName) = some columns) :
    (∀ x, x ∈ (parseSpannerColumns g chg q tPkey pKey sKey).1 ↔
      ((x ∈ substProjections q.projectionExpression q.expressionAttributeNames ∧
          x ∈ columns) ∨
        x = pKey ∨ (sKey ≠ "" ∧ x = sKey) ∨ (tPkey ≠ pKey ∧ x = tPkey))) ∧
    (parseSpannerColumns g chg q tPkey pKey sKey).1.Nodup := by
  have hsel : (parseSpannerColumns g chg q tPkey pKey sKey).1 =
      (let c0 := intersectDistinct
        (substProjections q.projectionExpression q.expressionAttributeNames) columns
      let c1 := appendIfAbsent c0 pKey
      let c2 := if sKey ≠ "" then appendIfAbsent c1 sKey else c1
      if tPkey ≠ pKey then appendIfAbsent c2 tPkey else c2) := by
    unfold parseSpannerColumns getSpannerProjections
    rw [hcount]
    simp only [Bool.false_eq_true, if_false, ite_false, hproj, not_false_eq_true,
      if_true, ite_true, ne_eq, if_neg (show ¬ q.projectionExpression = "" from hproj)]
    rw [hcols]
    simp only [Option.getD_some]
  rw [hsel]
  dsimp only
  constructor
  · intro x
    by_cases hsk : sKey ≠ "" <;> by_cases htp : tPkey ≠ pKey
    · rw [if_pos htp, if_pos hsk]
      simp only [mem_appendIfAbsent, mem_intersectDistinct]
      tauto
    · rw [if_neg htp, if_pos hsk]
      simp only [mem_appendIfAbsent, mem_intersectDistinct]
      tauto
    · rw [if_pos htp, if_neg hsk]
      simp only [mem_appendIfAbsent, mem_intersectDistinct]
      tauto
    · rw [if_neg htp, if_neg hsk]
      simp only [mem_appendIfAbsent, mem_intersectDistinct]
      tauto
  · by_cases hsk : sKey ≠ "" <;> by_cases htp : tPkey ≠ pKey
    · rw [if_pos htp, if_pos hsk]
      exact nodup_appendIfAbsent _ _ (nodup_appendIfAbsent _ _
        (nodup_appendIfAbsent _ _ (nodup_intersectDistinct _ _)))
    · rw [if_neg htp, if_pos hsk]
      exact nodup_appendIfAbsent _ _ (nodup_appendIfAbsent _ _
        (nodup_intersectDistinct _ _))
    · rw [if_pos htp, if_neg hsk]
      exact nodup_appendIfAbsent _ _ (nodup_appendIfAbsent _ _
        (nodup_intersectDistinct _ _))
    · rw [if_neg htp, if_neg hsk]
      exact nodup_appendIfAbsent _ _ (nodup_intersectDistinct _ _)

theorem projection_columns_contract_witness :
    (∀ x, x ∈ (parseSpannerColumns gSorted (fun s => s)
        (QueryMdl.mk "t" "" false 0 false none "c, nosuch" [] [] [] [])
        "id" "id" "sk").1 ↔
      ((x ∈ substProjections "c, nosuch" [] ∧ x ∈ ["id", "sk", "c"]) ∨
        x = "id" ∨ ("sk" ≠ "" ∧ x = "sk") ∨ ("id" ≠ "id" ∧ x = "id"))) ∧
    (parseSpannerColumns gSorted (fun s => s)
        (QueryMdl.mk "t" "" false 0 false none "c, nosuch" [] [] [] [])
        "id" "id" "sk").1.Nodup :=
  projection_columns_contract gSorted (fun s => s)
    (QueryMdl.mk "t" "" false 0 false none "c, nosuch" [] [] [] [])
    "id" "id" "sk" ["id", "sk", "c"] rfl (by decide) rfl

/-- C1: a false condition fails every conditional write with
ConditionalCheckFailed and leaves the backend untouched. -/
theorem condition_false_no_mutation (g : Globals) (chg : String → String)
    (db : DB) (table : String) (m : RowMap) (eval2 : EvalMdl)
    (expr : Option UpdateExprCond) (spannerRow oldRes : RowMap)
    (colsToRemove : List String) (mm1 mm2 : RowMap) (conf : TableConf)
    (ddl : List (String × String))
    (hgate : eval2.attributes.length > 0 ∨ expr.isSome)
    (hput : evaluateConditionalExpression g chg db table (serializeLists m)
      eval2 expr = .ok (false, mm1))
    (hplain : evaluateConditionalExpression g chg db table m eval2 expr =
      .ok (false, mm2))
    (hconf : alookup g.tableConf table = some conf)
    (hddl : alookup g.tableDDL (chg table) = some ddl) :
    SpannerPut g chg db table m eval2 expr spannerRow =
      (db, .error Err.conditionalCheckFailed) ∧
    SpannerDelete g chg db table m eval2 expr =
      (db, .error Err.conditionalCheckFailed) ∧
    SpannerAdd g chg db table m eval2 expr =
      (db, .error Err.conditionalCheckFailed) ∧
    SpannerDel g chg db table m eval2 expr =
      (db, .error Err.conditionalCheckFailed) ∧
    SpannerRemove g chg db table m eval2 expr colsToRemove oldRes =
      (db, oldRes, .error Err.conditionalCheckFailed) := by
  refine ⟨?_, ?_, ?_, ?_, ?_⟩
  · simp only [SpannerPut, bind, Except.bind, if_pos hgate, hput,
      Bool.false_eq_true, if_false, ite_false]
  · simp only [SpannerDelete, bind, Except.bind, if_pos hgate, hplain,
      Bool.false_eq_true, if_false, ite_false]
  · simp only [SpannerAdd, bind, Except.bind, hconf, hddl, if_pos hgate, hplain]
    rw [if_pos (show (!false : Bool) = true ∧
      (eval2.attributes.length > 0 ∨ expr.isSome) from ⟨rfl, hgate⟩)]
  · simp only [SpannerDel, bind, Except.bind, hconf, hddl, if_pos hgate, hplain]
    rw [if_pos (show (!false : Bool) = true ∧
      (eval2.attributes.length > 0 ∨ expr.isSome) from ⟨rfl, hgate⟩)]
  · simp only [SpannerRemove, bind, Except.bind, if_pos hgate, hplain]
    rw [if_pos (show (!false : Bool) = true ∧
      (eval2.attributes.length > 0 ∨ expr.isSome) from ⟨rfl, hgate⟩)]

theorem condition_false_no_mutation_witness :
    SpannerPut gPlain (fun s => s) dbPlain "t" [("id", Val.vstr "a")]
      evalExists none [] = (dbPlain, .error Err.conditionalCheckFailed) ∧
    SpannerDelete gPlain (fun s => s) dbPlain "t" [("id", Val.vstr "a")]
      evalExists none = (dbPlain, .error Err.conditionalCheckFailed) ∧
    SpannerAdd gPlain (fun s => s) dbPlain "t" [("id", Val.vstr "a")]
      evalExists none = (dbPlain, .error Err.conditionalCheckFailed) ∧
    SpannerDel gPlain (fun s => s) dbPlain "t" [("id", Val.vstr "a")]
      evalExists none = (dbPlain, .error Err.conditionalCheckFailed) ∧
    SpannerRemove gPlain (fun s => s) dbPlain "t" [("id", Val.vstr "a")]
      evalExists none ["c"] [] =
      (dbPlain, [], .error Err.conditionalCheckFailed) :=
  condition_false_no_mutation gPlain (fun s => s) dbPlain "t"
    [("id", Val.vstr "a")] evalExists none [] [] ["c"]
    [("id", Val.vstr "a")] [("id", Val.vstr "a")]
    (TableConf.mk "id" "" "t" []) [("id", "S"), ("c", "S"), ("lst", "L")]
    (Or.inl (by decide)) rfl rfl rfl rfl

/-- C10: an error from the condition-evaluation step is swallowed by
the ADD, attribute-DELETE and REMOVE paths, which report
ConditionalCheckFailed instead, while the Put and Delete paths
propagate the evaluation error itself. -/
theorem eval_error_handling_divergence (g : Globals) (chg : String → String)
    (db : DB) (table : String) (m : RowMap) (eval2 : EvalMdl)
    (expr : Option UpdateExprCond) (spannerRow oldRes : RowMap)
    (colsToRemove : List String) (e0 : Err) (conf : TableConf)
    (ddl : List (String × String))
    (hgate : eval2.attributes.length > 0 ∨ expr.isSome)
    (hput : evaluateConditionalExpression g chg db table (serializeLists m)
      eval2 expr = .error e0)
    (hplain : evaluateConditionalExpression g chg db table m eval2 expr =
      .error e0)
    (hconf : alookup g.tableConf table = some conf)
    (hddl : alookup g.tableDDL (chg table) = some ddl) :
    SpannerAdd g chg db table m eval2 expr =
      (db, .error Err.conditionalCheckFailed) ∧
    SpannerDel g chg db table m eval2 expr =
      (db, .error Err.conditionalCheckFailed) ∧
    SpannerRemove g chg db table m eval2 expr colsToRemove oldRes =
      (db, oldRes, .error Err.conditionalCheckFailed) ∧
    SpannerPut g chg db table m eval2 expr spannerRow =
      (db, .error e0) ∧
    SpannerDelete g chg db table m eval2 expr = (db, .error e0) := by
  refine ⟨?_, ?_, ?_, ?_, ?_⟩
  · simp only [SpannerAdd, bind, Except.bind, hconf, hddl, if_pos hgate, hplain]
    rw [if_pos (show (!false : Bool) = true ∧
      (eval2.attributes.length > 0 ∨ expr.isSome) from ⟨rfl, hgate⟩)]
  · simp only [SpannerDel, bind, Except.bind, hconf, hddl, if_pos hgate, hplain]
    rw [if_pos (show (!false : Bool) = true ∧
      (eval2.attributes.length > 0 ∨ expr.isSome) from ⟨rfl, hgate⟩)]
  · simp only [SpannerRemove, bind, Except.bind, if_pos hgate, hplain]
    rw [if_pos (show (!false : Bool) = true ∧
      (eval2.attributes.length > 0 ∨ expr.isSome) from ⟨rfl, hgate⟩)]
  · simp only [SpannerPut, bind, Except.bind, if_pos hgate, hput]
  · simp only [SpannerDelete, bind, Except.bind, if_pos hgate, hplain]

theorem eval_error_handling_divergence_witness :
    SpannerAdd gPlain (fun s => s) dbPlain "t" [] evalExists none =
      (dbPlain, .error Err.conditionalCheckFailed) ∧
    SpannerDel gPlain (fun s => s) dbPlain "t" [] evalExists none =
      (dbPlain, .error Err.conditionalCheckFailed) ∧
    SpannerRemove gPlain (fun s => s) dbPlain "t" [] evalExists none ["c"] [] =
      (dbPlain, [], .error Err.conditionalCheckFailed) ∧
    SpannerPut gPlain (fun s => s) dbPlain "t" [] evalExists none [] =
      (dbPlain, .error Err.validationException) ∧
    SpannerDelete gPlain (fun s => s) dbPlain "t" [] evalExists none =
      (dbPlain, .error Err.validationException) :=
  eval_error_handling_divergence gPlain (fun s => s) dbPlain "t" []
    evalExists none [] [] ["c"] Err.validationException
    (TableConf.mk "id" "" "t" []) [("id", "S"), ("c", "S"), ("lst", "L")]
    (Or.inl (by decide)) rfl rfl rfl rfl

/-- C8 counterexample: REMOVE of the list-index target `lst[1]` applied
twice shortens the list twice, so the post-image differs from a single
application. -/
theorem remove_twice_counterexample :
    (SpannerRemove gPlain (fun s => s) dbPlain "t" [("id", Val.vstr "a")]
        evalNone none ["lst[1]"]
        [("id", Val.vstr "a"),
         ("lst", Val.vlist [Val.vstr "x", Val.vstr "y", Val.vstr "z"])]).2.1 =
      [("id", Val.vstr "a"), ("lst", Val.vlist [Val.vstr "x", Val.vstr "z"])] ∧
    (SpannerRemove gPlain (fun s => s)
        (SpannerRemove gPlain (fun s => s) dbPlain "t" [("id", Val.vstr "a")]
          evalNone none ["lst[1]"]
          [("id", Val.vstr "a"),
           ("lst", Val.vlist [Val.vstr "x", Val.vstr "y", Val.vstr "z"])]).1
        "t" [("id", Val.vstr "a")] evalNone none ["lst[1]"]
        (SpannerRemove gPlain (fun s => s) dbPlain "t" [("id", Val.vstr "a")]
          evalNone none ["lst[1]"]
          [("id", Val.vstr "a"),
           ("lst", Val.vlist [Val.vstr "x", Val.vstr "y", Val.vstr "z"])]).2.1).2.1 =
      [("id", Val.vstr "a"), ("lst", Val.vlist [Val.vstr "x"])] ∧
    [("id", Val.vstr "a"), ("lst", Val.vlist [Val.vstr "x", Val.vstr "z"])] ≠
      [("id", Val.vstr "a"), ("lst", Val.vlist [Val.vstr "x"])] := by
  refine ⟨rfl, rfl, by simp⟩

theorem foldl_removeKey_filter {α : Type} (cols : List String) :
    ∀ X : List (String × α),
      cols.foldl removeKey X = X.filter (fun kv => decide (kv.1 ∉ cols)) := by
  induction cols with
  | nil => intro X; simp
  | cons hd tl ih =>
    intro X
    simp only [List.foldl_cons]
    rw [ih (removeKey X hd)]
    unfold removeKey
    rw [List.filter_filter]
    apply List.filter_congr
    intro kv _
    simp only [List.mem_cons, decide_not]
    by_cases h1 : kv.1 = hd <;> by_cases h2 : kv.1 ∈ tl <;> simp [h1, h2]

theorem removeTargets_columns_only (cols : List String) :
    ∀ (X m : RowMap),
      (∀ t ∈ cols, ¬ (t.data.contains '[' ∧ t.data.contains ']')) →
      removeTargets cols (X, m) = (cols.foldl removeKey X, m) := by
  induction cols with
  | nil => intro X m _; rfl
  | cons hd tl ih =>
    intro X m h
    unfold removeTargets
    simp only [List.foldl_cons]
    rw [if_neg (h hd (List.mem_cons_self hd tl))]
    have := ih (removeKey X hd) m (fun t ht => h t (List.mem_cons_of_mem hd ht))
    unfold removeTargets at this
    exact this

/-- C8 (amended): a REMOVE whose targets are all whole columns (no
`attr[i]` list-index target) is idempotent on the response/write map
pair, and leaves the write map untouched; list-index targets are not
idempotent (each application removes one more element). -/
theorem remove_column_targets_idempotent (colsToRemove : List String)
    (oldRes m : RowMap)
    (h : ∀ t ∈ colsToRemove,
      ¬ (t.data.contains '[' ∧ t.data.contains ']')) :
    removeTargets colsToRemove (removeTargets colsToRemove (oldRes, m)) =
      removeTargets colsToRemove (oldRes, m) ∧
    (removeTargets colsToRemove (oldRes, m)).2 = m := by
  rw [removeTargets_columns_only colsToRemove oldRes m h,
    removeTargets_columns_only colsToRemove _ m h]
  refine ⟨?_, rfl⟩
  rw [foldl_removeKey_filter, foldl_removeKey_filter, List.filter_filter]
  have hp : (fun kv : String × Val =>
      (decide (kv.1 ∉ colsToRemove) && decide (kv.1 ∉ colsToRemove))) =
      (fun kv : String × Val => decide (kv.1 ∉ colsToRemove)) := by
    funext kv
    exact Bool.and_self _
  rw [hp]

theorem remove_column_targets_idempotent_witness :
    removeTargets ["c"] (removeTargets ["c"]
      ([("id", Val.vstr "a"), ("c", Val.vstr "b")], [("id", Val.vstr "a")])) =
      removeTargets ["c"]
        ([("id", Val.vstr "a"), ("c", Val.vstr "b")], [("id", Val.vstr "a")]) ∧
    (removeTargets ["c"]
      ([("id", Val.vstr "a"), ("c", Val.vstr "b")], [("id", Val.vstr "a")])).2 =
      [("id", Val.vstr "a")] :=
  remove_column_targets_idempotent ["c"]
    [("id", Val.vstr "a"), ("c", Val.vstr "b")] [("id", Val.vstr "a")]
    (by decide)

theorem infix_append_split {α : Type} {p a b : List α} (h : p <:+: a ++ b) :
    p <:+: a ∨ p <:+: b ∨
      ∃ x y, p = x ++ y ∧ x ≠ [] ∧ y ≠ [] ∧ x <:+ a ∧ y <+: b := by
  obtain ⟨u, v, huv⟩ := h
  have hlen : u.length + p.length + v.length = a.length + b.length := by
    have h0 := congrArg List.length huv
    simp at h0
    omega
  have hae : a = (u ++ p ++ v).take a.length := by
    rw [huv, List.take_append_eq_append_take,
      List.take_of_length_le (le_refl a.length), Nat.sub_self,
      List.take_zero, List.append_nil]
  have hbe : b = (u ++ p ++ v).drop a.length := by
    rw [huv, List.drop_append_eq_append_drop,
      List.drop_eq_nil_of_le (le_refl a.length), Nat.sub_self,
      List.drop_zero, List.nil_append]
  by_cases hA : u.length + p.length ≤ a.length
  · left
    have h1 : (u ++ p) <+: a := by
      rw [hae]
      rw [List.prefix_take_iff]
      constructor
      · exact ⟨v, by simp⟩
      · simpa using hA
    exact List.IsInfix.trans ⟨u, [], by simp⟩ h1.isInfix
  · by_cases hB : a.length ≤ u.length
    · right; left
      have hb2 : b = (u.drop a.length) ++ p ++ v := by
        rw [hbe, List.append_assoc, List.drop_append_eq_append_drop,
          Nat.sub_eq_zero_of_le hB, List.drop_zero, List.append_assoc]
      exact ⟨u.drop a.length, v, hb2.symm⟩
    · right; right
      push_neg at hA hB
      set m := a.length - u.length with hm
      have hm1 : 0 < m := by omega
      have hm2 : m < p.length := by omega
      refine ⟨p.take m, p.drop m, (List.take_append_drop m p).symm, ?_, ?_, ?_, ?_⟩
      · apply List.ne_nil_of_length_pos
        rw [List.length_take]
        omega
      · apply List.ne_nil_of_length_pos
        rw [List.length_drop]
        omega
      · have ha2 : a = u ++ p.take m := by
          rw [hae, List.append_assoc, List.take_append_eq_append_take,
            List.take_of_length_le (by omega : u.length ≤ a.length),
            List.take_append_eq_append_take, ← hm,
            (by omega : m - p.length = 0), List.take_zero, List.append_nil]
        exact ⟨u, ha2.symm⟩
      · have hb2 : b = p.drop m ++ v := by
          rw [hbe, List.append_assoc, List.drop_append_eq_append_drop,
            List.drop_eq_nil_of_le (by omega : u.length ≤ a.length),
            List.nil_append, ← hm, List.drop_append_eq_append_drop,
            (by omega : m - p.length = 0), List.drop_zero]
        exact ⟨v, hb2.symm⟩

theorem suffix_singleton {α : Type} {x : List α} {c : α} (h : x <:+ [c]) :
    x = [] ∨ x = [c] := by
  obtain ⟨w, hw⟩ := h
  rcases w with _ | ⟨d, w⟩
  · right; simpa using hw
  · left
    have h0 : d = c ∧ w = [] ∧ x = [] := by simpa using hw
    exact h0.2.2

theorem replaceAllAux_no_self (p r : Str)
    (hp : p ≠ [])
    (hC1 : ∀ q, q ≠ [] → q ≠ p → q <:+ p → ¬ q <+: r ∧ ¬ r <+: q)
    (hC2 : ¬ p <:+: r)
    (hC4 : ∀ x, x ≠ [] → x <:+ r → ¬ x <+: p) :
    ∀ fuel s, s.length ≤ fuel →
      (¬ p <:+: replaceAllAux p r fuel s) ∧
      (∀ q, q ≠ [] → q ≠ p → q <:+ p →
        q <+: replaceAllAux p r fuel s → q <+: s) := by
  intro fuel
  induction fuel with
  | zero =>
    intro s hs
    have hs0 : s = [] := List.length_eq_zero.mp (by omega)
    subst hs0
    constructor
    · show ¬ p <:+: (if p = [] then r else [])
      rw [if_neg hp]
      intro hinf
      exact hp (List.eq_nil_of_infix_nil hinf)
    · intro q hq _ _ hpre
      rw [show replaceAllAux p r 0 [] = (if p = [] then r else []) from rfl,
        if_neg hp] at hpre
      exact absurd (List.prefix_nil.mp hpre) hq
  | succ fuel ih =>
    intro s hs
    match s with
    | [] =>
      constructor
      · show ¬ p <:+: (if p = [] then r else [])
        rw [if_neg hp]
        intro hinf
        exact hp (List.eq_nil_of_infix_nil hinf)
      · intro q hq _ _ hpre
        rw [show replaceAllAux p r (fuel + 1) [] = (if p = [] then r else [])
          from rfl, if_neg hp] at hpre
        exact absurd (List.prefix_nil.mp hpre) hq
    | c :: t =>
      have ht : t.length ≤ fuel := by
        simp at hs
        omega
      have hred : replaceAllAux p r (fuel + 1) (c :: t) =
          if p = [] then r ++ (c :: t).foldr (fun ch acc => ch :: (r ++ acc)) []
          else if p <+: (c :: t) then
            r ++ replaceAllAux p r fuel ((c :: t).drop p.length)
          else c :: replaceAllAux p r fuel t := rfl
      rw [hred, if_neg hp]
      by_cases hm : p <+: (c :: t)
      · rw [if_pos hm]
        have hdlen : ((c :: t).drop p.length).length ≤ fuel := by
          rw [List.length_drop]
          have : 1 ≤ p.length := List.length_pos.mpr hp
          simp
          omega
        obtain ⟨ih1, ih2⟩ := ih ((c :: t).drop p.length) hdlen
        constructor
        · intro hinf
          rcases infix_append_split hinf with h1 | h2 | ⟨x, y, hxy, hx, hy, hxa, hyb⟩
          · exact hC2 h1
          · exact ih1 h2
          · exact hC4 x hx hxa ⟨y, hxy.symm⟩
        · intro q hq hqp hqs hpre
          rcases List.prefix_or_prefix_of_prefix hpre
            (List.prefix_append r (replaceAllAux p r fuel ((c :: t).drop p.length)))
            with h1 | h1
          · exact absurd h1 (hC1 q hq hqp hqs).1
          · exact absurd h1 (hC1 q hq hqp hqs).2
      · rw [if_neg hm]
        obtain ⟨ih1, ih2⟩ := ih t ht
        have step2 : ∀ q, q ≠ [] → q ≠ p → q <:+ p →
            q <+: c :: replaceAllAux p r fuel t → q <+: c :: t := by
          intro q hq hqp hqs hpre
          match q with
          | [] => exact absurd rfl hq
          | qc :: q2 =>
            obtain ⟨w, hw⟩ := hpre
            simp only [List.cons_append, List.cons.injEq] at hw
            obtain ⟨hqc, hw2⟩ := hw
            subst hqc
            match q2 with
            | [] => exact ⟨t, rfl⟩
            | d :: q3 =>
              have hq2s : (d :: q3) <:+ p := by
                obtain ⟨w2, hw3⟩ := hqs
                exact ⟨w2 ++ [qc], by rw [← hw3]; simp⟩
              have hq2p : (d :: q3) ≠ p := by
                intro hcontra
                have hl1 := congrArg List.length hcontra
                have hl2 := List.IsSuffix.length_le hqs
                simp at hl1 hl2
                omega
              have := ih2 (d :: q3) (by simp) hq2p hq2s ⟨w, hw2⟩
              obtain ⟨w3, hw4⟩ := this
              exact ⟨w3, by simp [← hw4]⟩
        constructor
        · intro hinf
          have hinf2 : p <:+: [c] ++ replaceAllAux p r fuel t := by
            simpa using hinf
          rcases infix_append_split hinf2 with h1 | h2 | ⟨x, y, hxy, hx, hy, hxa, hyb⟩
          · obtain ⟨u, v, huv⟩ := h1
            have hlen := congrArg List.length huv
            have hppos := List.length_pos.mpr hp
            simp at hlen
            have hu : u = [] := List.length_eq_zero.mp (by omega)
            have hv : v = [] := List.length_eq_zero.mp (by omega)
            subst hu hv
            simp at huv
            exact hm ⟨t, by simp [huv]⟩
          · exact ih1 h2
          · rcases suffix_singleton hxa with h3 | h3
            · exact hx h3
            · subst h3
              have hyne : y ≠ p := by
                intro hcontra
                have := congrArg List.length hxy
                rw [hcontra] at this
                simp at this
              have hys : y <:+ p := ⟨[c], hxy.symm⟩
              have := ih2 y hy hyne hys hyb
              apply hm
              rw [hxy]
              obtain ⟨w, hw⟩ := this
              exact ⟨w, by rw [← hw]; simp⟩
        · exact step2

theorem replaceAllAux_no_occurrence (p0 k w : Str)
    (hk : k ≠ [])
    (hB1 : ¬ p0 <:+: w)
    (hB2 : ∀ x, x ≠ [] → x <:+ w → ¬ x <+: p0)
    (hC1 : ∀ q, q ≠ [] → q <:+ p0 → ¬ q <+: w ∧ ¬ w <+: q) :
    ∀ fuel s, s.length ≤ fuel → ¬ p0 <:+: s →
      (¬ p0 <:+: replaceAllAux k w fuel s) ∧
      (∀ q, q ≠ [] → q <:+ p0 →
        q <+: replaceAllAux k w fuel s → q <+: s) := by
  intro fuel
  induction fuel with
  | zero =>
    intro s hlen hs
    have hs0 : s = [] := List.length_eq_zero.mp (by omega)
    subst hs0
    constructor
    · show ¬ p0 <:+: (if k = [] then w else [])
      rw [if_neg hk]
      simpa using hs
    · intro q hq _ hpre
      rw [show replaceAllAux k w 0 [] = (if k = [] then w else []) from rfl,
        if_neg hk] at hpre
      exact absurd (List.prefix_nil.mp hpre) hq
  | succ fuel ih =>
    intro s hlen hs
    match s with
    | [] =>
      constructor
      · show ¬ p0 <:+: (if k = [] then w else [])
        rw [if_neg hk]
        simpa using hs
      · intro q hq _ hpre
        rw [show replaceAllAux k w (fuel + 1) [] = (if k = [] then w else [])
          from rfl, if_neg hk] at hpre
        exact absurd (List.prefix_nil.mp hpre) hq
    | c :: t =>
      have ht : t.length ≤ fuel := by
        simp at hlen
        omega
      have hst : ¬ p0 <:+: t := fun h2 => hs (List.infix_cons h2)
      have hred : replaceAllAux k w (fuel + 1) (c :: t) =
          if k = [] then w ++ (c :: t).foldr (fun ch acc => ch :: (w ++ acc)) []
          else if k <+: (c :: t) then
            w ++ replaceAllAux k w fuel ((c :: t).drop k.length)
          else c :: replaceAllAux k w fuel t := rfl
      rw [hred, if_neg hk]
      by_cases hm : k <+: (c :: t)
      · rw [if_pos hm]
        have hdlen : ((c :: t).drop k.length).length ≤ fuel := by
          rw [List.length_drop]
          have : 1 ≤ k.length := List.length_pos.mpr hk
          simp
          omega
        have hsd : ¬ p0 <:+: (c :: t).drop k.length := fun h2 =>
          hs (List.IsInfix.trans h2 (List.drop_suffix _ _).isInfix)
        obtain ⟨ih1, ih2⟩ := ih ((c :: t).drop k.length) hdlen hsd
        constructor
        · intro hinf
          rcases infix_append_split hinf with h1 | h2 | ⟨x, y, hxy, hx, hy, hxa, hyb⟩
          · exact hB1 h1
          · exact ih1 h2
          · exact hB2 x hx hxa ⟨y, hxy.symm⟩
        · intro q hq hqs hpre
          rcases List.prefix_or_prefix_of_prefix hpre
            (List.prefix_append w (replaceAllAux k w fuel ((c :: t).drop k.length)))
            with h1 | h1
          · exact absurd h1 (hC1 q hq hqs).1
          · exact absurd h1 (hC1 q hq hqs).2
      · rw [if_neg hm]
        obtain ⟨ih1, ih2⟩ := ih t ht hst
        have step2 : ∀ q, q ≠ [] → q <:+ p0 →
            q <+: c :: replaceAllAux k w fuel t → q <+: c :: t := by
          intro q hq hqs hpre
          match q with
          | [] => exact absurd rfl hq
          | qc :: q2 =>
            obtain ⟨u, hu⟩ := hpre
            simp only [List.cons_append, List.cons.injEq] at hu
            obtain ⟨hqc, hu2⟩ := hu
            subst hqc
            match q2 with
            | [] => exact ⟨t, rfl⟩
            | d :: q3 =>
              have hq2s : (d :: q3) <:+ p0 := by
                obtain ⟨w2, hw3⟩ := hqs
                exact ⟨w2 ++ [qc], by rw [← hw3]; simp⟩
              have := ih2 (d :: q3) (by simp) hq2s ⟨u, hu2⟩
              obtain ⟨w3, hw4⟩ := this
              exact ⟨w3, by simp [← hw4]⟩
        constructor
        · intro hinf
          have hinf2 : p0 <:+: [c] ++ replaceAllAux k w fuel t := by
            simpa using hinf
          rcases infix_append_split hinf2 with h1 | h2 | ⟨x, y, hxy, hx, hy, hxa, hyb⟩
          · exact hs (List.IsInfix.trans h1 ⟨[], t, by simp⟩)
          · exact ih1 h2
          · rcases suffix_singleton hxa with h3 | h3
            · exact hx h3
            · subst h3
              have hys : y <:+ p0 := ⟨[c], hxy.symm⟩
              have := ih2 y hy hys hyb
              apply hs
              obtain ⟨u2, hu3⟩ := this
              exact ⟨[], u2, by rw [hxy]; simp [← hu3]⟩
        · exact step2

theorem headD_mem {l : Str} (h : l ≠ []) (d : Char) : l.headD d ∈ l := by
  cases l with
  | nil => exact absurd rfl h
  | cons c t => simp

theorem headD_eq_of_prefix {x l : Str} (h : x <+: l) (hx : x ≠ []) (d : Char) :
    x.headD d = l.headD d := by
  obtain ⟨u, hu⟩ := h
  cases x with
  | nil => exact absurd rfl hx
  | cons c t => rw [← hu]; simp

theorem replaceAll_no_self (p r : Str)
    (hp : p ≠ [])
    (hC1 : ∀ q, q ≠ [] → q ≠ p → q <:+ p → ¬ q <+: r ∧ ¬ r <+: q)
    (hC2 : ¬ p <:+: r)
    (hC4 : ∀ x, x ≠ [] → x <:+ r → ¬ x <+: p) (s : Str) :
    ¬ p <:+: replaceAll p r s :=
  (replaceAllAux_no_self p r hp hC1 hC2 hC4 s.length s (le_refl _)).1

theorem replaceAll_no_occurrence (p0 k w s : Str)
    (hk : k ≠ [])
    (hB1 : ¬ p0 <:+: w)
    (hB2 : ∀ x, x ≠ [] → x <:+ w → ¬ x <+: p0)
    (hC1 : ∀ q, q ≠ [] → q <:+ p0 → ¬ q <+: w ∧ ¬ w <+: q)
    (hs : ¬ p0 <:+: s) :
    ¬ p0 <:+: replaceAll k w s :=
  (replaceAllAux_no_occurrence p0 k w hk hB1 hB2 hC1 s.length s
    (le_refl _) hs).1

theorem replaceAllAux_preserves_presence (k k2 w : Str)
    (hkne : k ≠ []) (hk2 : k2 ≠ [])
    (hI1 : ¬ k <:+: k2) (hI2 : ¬ k2 <:+: k)
    (hD1 : ∀ x, x ≠ [] → x <:+ k2 → ¬ x <+: k)
    (hD2 : ∀ x, x ≠ [] → x <:+ k → ¬ x <+: k2) :
    ∀ fuel s, s.length ≤ fuel →
      (k <:+: s → k <:+: replaceAllAux k2 w fuel s) ∧
      (∀ q, q ≠ [] → q <:+ k → q <+: s → q <+: replaceAllAux k2 w fuel s) := by
  intro fuel
  induction fuel with
  | zero =>
    intro s hlen
    have hs0 : s = [] := List.length_eq_zero.mp (by omega)
    subst hs0
    constructor
    · intro hinf
      exact absurd (List.eq_nil_of_infix_nil hinf) hkne
    · intro q hq _ hpre
      exact absurd (List.prefix_nil.mp hpre) hq
  | succ fuel ih =>
    intro s hlen
    match s with
    | [] =>
      constructor
      · intro hinf
        exact absurd (List.eq_nil_of_infix_nil hinf) hkne
      · intro q hq _ hpre
        exact absurd (List.prefix_nil.mp hpre) hq
    | c :: t =>
      have ht : t.length ≤ fuel := by
        simp at hlen
        omega
      have hred : replaceAllAux k2 w (fuel + 1) (c :: t) =
          if k2 = [] then w ++ (c :: t).foldr (fun ch acc => ch :: (w ++ acc)) []
          else if k2 <+: (c :: t) then
            w ++ replaceAllAux k2 w fuel ((c :: t).drop k2.length)
          else c :: replaceAllAux k2 w fuel t := rfl
      rw [hred, if_neg hk2]
      by_cases hm : k2 <+: (c :: t)
      · rw [if_pos hm]
        obtain ⟨s2, hs2⟩ := hm
        have hdrop : (c :: t).drop k2.length = s2 := by
          rw [← hs2, List.drop_left]
        have hdlen : s2.length ≤ fuel := by
          have := congrArg List.length hs2
          have h1 : 1 ≤ k2.length := List.length_pos.mpr hk2
          simp at this
          omega
        rw [hdrop]
        obtain ⟨ih1, ih2⟩ := ih s2 hdlen
        constructor
        · intro hinf
          rw [← hs2] at hinf
          rcases infix_append_split hinf with h1 | h2 | ⟨x, y, hxy, hx, hy, hxa, hyb⟩
          · exact absurd h1 hI1
          · exact List.IsInfix.trans (ih1 h2) ⟨w, [], by simp⟩
          · exact absurd ⟨y, hxy.symm⟩ (hD1 x hx hxa)
        · intro q hq hqs hpre
          rw [← hs2] at hpre
          rcases List.prefix_or_prefix_of_prefix hpre
            (List.prefix_append k2 s2) with h1 | h1
          · exact absurd h1 (hD2 q hq hqs)
          · exfalso
            apply hI2
            obtain ⟨u, hu⟩ := hqs
            obtain ⟨v, hv⟩ := h1
            exact ⟨u, v, by rw [← hu, ← hv, List.append_assoc]⟩
      · rw [if_neg hm]
        obtain ⟨ih1, ih2⟩ := ih t ht
        have step2 : ∀ q, q ≠ [] → q <:+ k → q <+: c :: t →
            q <+: c :: replaceAllAux k2 w fuel t := by
          intro q hq hqs hpre
          match q with
          | [] => exact absurd rfl hq
          | qc :: q2 =>
            obtain ⟨u, hu⟩ := hpre
            simp only [List.cons_append, List.cons.injEq] at hu
            obtain ⟨hqc, hu2⟩ := hu
            subst hqc
            match q2 with
            | [] => exact ⟨replaceAllAux k2 w fuel t, rfl⟩
            | d :: q3 =>
              have hq2s : (d :: q3) <:+ k := by
                obtain ⟨w2, hw3⟩ := hqs
                exact ⟨w2 ++ [qc], by rw [← hw3]; simp⟩
              have := ih2 (d :: q3) (by simp) hq2s ⟨u, hu2⟩
              obtain ⟨w3, hw4⟩ := this
              exact ⟨w3, by simp [← hw4]⟩
        constructor
        · intro hinf
          have hinf2 : k <:+: [c] ++ t := by simpa using hinf
          rcases infix_append_split hinf2 with h1 | h2 | ⟨x, y, hxy, hx, hy, hxa, hyb⟩
          · obtain ⟨u, v, huv⟩ := h1
            have hlen2 := congrArg List.length huv
            have hkpos := List.length_pos.mpr hkne
            simp at hlen2
            have hu : u = [] := List.length_eq_zero.mp (by omega)
            have hv : v = [] := List.length_eq_zero.mp (by omega)
            subst hu hv
            simp at huv
            have : k <+: c :: replaceAllAux k2 w fuel t :=
              step2 k hkne (List.suffix_refl k) ⟨t, by simp [huv]⟩
            exact this.isInfix
          · exact List.infix_cons (ih1 h2)
          · rcases suffix_singleton hxa with h3 | h3
            · exact absurd h3 hx
            · subst h3
              have : k <+: c :: replaceAllAux k2 w fuel t := by
                apply step2 k hkne (List.suffix_refl k)
                rw [hxy]
                obtain ⟨u, hu⟩ := hyb
                exact ⟨u, by simp [← hu]⟩
              exact this.isInfix
        · exact step2

theorem tokensIndependent_of_tails (k k2 : Str)
    (h1 : ¬ k <:+: k2) (h2 : ∀ x ∈ k2.tails, x ≠ [] → ¬ x <+: k) :
    tokensIndependent k k2 :=
  ⟨h1, fun x hx hs => h2 x ((List.mem_tails _ _).mpr hs) hx⟩

theorem replaceAll_preserves_presence (k k2 w s : Str)
    (hkne : k ≠ []) (hk2 : k2 ≠ [])
    (hsep1 : tokensIndependent k k2) (hsep2 : tokensIndependent k2 k)
    (hs : k <:+: s) : k <:+: replaceAll k2 w s :=
  (replaceAllAux_preserves_presence k k2 w hkne hk2 hsep1.1 hsep2.1
    hsep1.2 hsep2.2 s.length s (le_refl _)).1 hs

theorem placeholder_word_conditions (qv p0 : Str) (n : Nat)
    (hp0 : p0 ≠ []) (hat : '@' ∉ p0)
    (h2 : p0.headD ' ' ∉ qv) (h3 : p0.headD ' ' ∉ "0123456789".data) :
    (¬ p0 <:+: ('@' :: (qv ++ natDigits n))) ∧
    (∀ x, x ≠ [] → x <:+ ('@' :: (qv ++ natDigits n)) → ¬ x <+: p0) ∧
    (∀ q, q ≠ [] → q <:+ p0 →
      ¬ q <+: ('@' :: (qv ++ natDigits n)) ∧
      ¬ ('@' :: (qv ++ natDigits n)) <+: q) := by
  have hw : p0.headD ' ' ∉ ('@' :: (qv ++ natDigits n)) := by
    intro hmem
    simp only [List.mem_cons, List.mem_append] at hmem
    rcases hmem with hmem | hmem | hmem
    · exact hat (hmem ▸ headD_mem hp0 ' ')
    · exact h2 hmem
    · exact h3 (natDigits_subset_digits n _ hmem)
  refine ⟨?_, ?_, ?_⟩
  · intro hinf
    exact hw (hinf.subset (headD_mem hp0 ' '))
  · intro x hx hxs hxp
    rw [← headD_eq_of_prefix hxp hx ' '] at hw
    exact hw (hxs.subset (headD_mem hx ' '))
  · intro q hq hqs
    constructor
    · intro hpre
      have h4 := headD_eq_of_prefix hpre hq ' '
      have h5 : q.headD ' ' = '@' := by rw [h4]; rfl
      have h6 : q.headD ' ' ∈ p0 := hqs.subset (headD_mem hq ' ')
      rw [h5] at h6
      exact hat h6
    · intro hpre
      have h4 := headD_eq_of_prefix hpre (by simp) ' '
      have h5 : q.headD ' ' = '@' := by rw [← h4]; rfl
      have h6 : q.headD ' ' ∈ p0 := hqs.subset (headD_mem hq ' ')
      rw [h5] at h6
      exact hat h6

theorem substPlaceholders_foldl_no_occurrence (qv p0 : Str) (hp0 : p0 ≠ [])
    (hat : '@' ∉ p0) (h2 : p0.headD ' ' ∉ qv)
    (h3 : p0.headD ' ' ∉ "0123456789".data) :
    ∀ (vmap : List (Str × Val)) (e : Str) (params : List (Str × Val)) (n : Nat),
      (∀ kv ∈ vmap, kv.1 ≠ []) → ¬ p0 <:+: e →
      ¬ p0 <:+: (vmap.foldl (fun st kv =>
        if goContains st.1 kv.1 then
          let str := qv ++ natDigits st.2.2
          (replaceAll kv.1 ('@' :: str) st.1,
            (st.2.1 ++ [(str, kv.2)], st.2.2 + 1))
        else st) (e, params, n)).1 := by
  intro vmap
  induction vmap with
  | nil => intro e params n _ he; exact he
  | cons kv rest ih =>
    intro e params n hkeys he
    rw [List.foldl_cons]
    by_cases hc : goContains e kv.1
    · rw [if_pos hc]
      obtain ⟨w1, w2, w3⟩ := placeholder_word_conditions qv p0 n hp0 hat h2 h3
      exact ih _ _ _ (fun kv2 h => hkeys kv2 (List.mem_cons_of_mem kv h))
        (replaceAll_no_occurrence p0 kv.1 _ e
          (hkeys kv (List.mem_cons_self kv rest)) w1 w2 w3 he)
    · rw [if_neg hc]
      exact ih _ _ _ (fun kv2 h => hkeys kv2 (List.mem_cons_of_mem kv h)) he

theorem substPlaceholders_no_occurrence (qv p0 : Str) (hp0 : p0 ≠ [])
    (hat : '@' ∉ p0) (h2 : p0.headD ' ' ∉ qv)
    (h3 : p0.headD ' ' ∉ "0123456789".data)
    (vmap : List (Str × Val)) (e : Str) (params : List (Str × Val))
    (hkeys : ∀ kv ∈ vmap, kv.1 ≠ []) (he : ¬ p0 <:+: e) :
    ¬ p0 <:+: (substPlaceholders qv vmap e params).1 := by
  unfold substPlaceholders
  exact substPlaceholders_foldl_no_occurrence qv p0 hp0 hat h2 h3 vmap e params 1
    hkeys he

theorem substPlaceholders_foldl_params (qv : Str) :
    ∀ (vmap : List (Str × Val)) (e : Str) (params : List (Str × Val)) (n : Nat),
      ∃ bs, (vmap.foldl (fun st kv =>
          if goContains st.1 kv.1 then
            let str := qv ++ natDigits st.2.2
            (replaceAll kv.1 ('@' :: str) st.1,
              (st.2.1 ++ [(str, kv.2)], st.2.2 + 1))
          else st) (e, params, n)).2.1 = params ++ bs ∧
        (∀ i (hi : i < bs.length), ∃ v, bs.get ⟨i, hi⟩ =
          (qv ++ natDigits (n + i), v) ∧ ∃ kk, (kk, v) ∈ vmap) := by
  intro vmap
  induction vmap with
  | nil =>
    intro e params n
    refine ⟨[], by simp, ?_⟩
    intro i hi
    simp at hi
  | cons kv rest ih =>
    intro e params n
    rw [List.foldl_cons]
    by_cases hc : goContains e kv.1
    · rw [if_pos hc]
      obtain ⟨bs2, h1, h3⟩ :=
        ih (replaceAll kv.1 ('@' :: (qv ++ natDigits n)) e)
          (params ++ [(qv ++ natDigits n, kv.2)]) (n + 1)
      refine ⟨(qv ++ natDigits n, kv.2) :: bs2, ?_, ?_⟩
      · rw [h1, List.append_assoc]
        rfl
      · intro i hi
        match i with
        | 0 =>
          refine ⟨kv.2, by simp, kv.1, ?_⟩
          simp
        | j + 1 =>
          have hj : j < bs2.length := by
            rw [List.length_cons] at hi
            omega
          obtain ⟨v, hv1, kk, hv2⟩ := h3 j hj
          refine ⟨v, ?_, kk, List.mem_cons_of_mem kv hv2⟩
          show bs2.get ⟨j, hj⟩ = (qv ++ natDigits (n + (j + 1)), v)
          have harg : n + 1 + j = n + (j + 1) := by omega
          rw [harg] at hv1
          exact hv1
    · rw [if_neg hc]
      obtain ⟨bs2, h1, h3⟩ := ih e params n
      refine ⟨bs2, h1, ?_⟩
      intro i hi
      obtain ⟨v, hv1, kk, hv2⟩ := h3 i hi
      exact ⟨v, hv1, kk, List.mem_cons_of_mem kv hv2⟩

theorem substPlaceholders_params_shape (qv : Str) (vmap : List (Str × Val))
    (e : Str) (params : List (Str × Val)) :
    ∃ bs, (substPlaceholders qv vmap e params).2 = params ++ bs ∧
      ∀ i (hi : i < bs.length), ∃ v, bs.get ⟨i, hi⟩ =
        (qv ++ natDigits (1 + i), v) ∧ ∃ kk, (kk, v) ∈ vmap := by
  unfold substPlaceholders
  exact substPlaceholders_foldl_params qv vmap e params 1

theorem substPlaceholders_foldl_complete (qv : Str) :
    ∀ (vmap : List (Str × Val)) (e : Str) (params : List (Str × Val)) (n : Nat),
      (∀ kv ∈ vmap, kv.1 ≠ []) →
      vmap.Pairwise (fun a b =>
        tokensIndependent a.1 b.1 ∧ tokensIndependent b.1 a.1) →
      ∀ kv ∈ vmap, goContains e kv.1 = true →
        ∃ n2, (qv ++ natDigits n2, kv.2) ∈ (vmap.foldl (fun st kv =>
          if goContains st.1 kv.1 then
            let str := qv ++ natDigits st.2.2
            (replaceAll kv.1 ('@' :: str) st.1,
              (st.2.1 ++ [(str, kv.2)], st.2.2 + 1))
          else st) (e, params, n)).2.1 := by
  intro vmap
  induction vmap with
  | nil =>
    intro e params n _ _ kv hkv
    simp at hkv
  | cons kv0 rest ih =>
    intro e params n hkeys hpair kv hkv hc
    rw [List.pairwise_cons] at hpair
    obtain ⟨hpair0, hpairR⟩ := hpair
    rw [List.foldl_cons]
    rcases List.mem_cons.mp hkv with hkv0 | hkvR
    · subst hkv0
      rw [if_pos hc]
      obtain ⟨bs2, h1, _⟩ :=
        substPlaceholders_foldl_params qv rest
          (replaceAll kv.1 ('@' :: (qv ++ natDigits n)) e)
          (params ++ [(qv ++ natDigits n, kv.2)]) (n + 1)
      refine ⟨n, ?_⟩
      rw [h1]
      simp
    · by_cases hc0 : goContains e kv0.1
      · rw [if_pos hc0]
        have hpres : kv.1 <:+: replaceAll kv0.1 ('@' :: (qv ++ natDigits n)) e := by
          apply replaceAll_preserves_presence kv.1 kv0.1 _ e
            (hkeys kv (List.mem_cons_of_mem kv0 hkvR))
            (hkeys kv0 (List.mem_cons_self kv0 rest))
            (hpair0 kv hkvR).2 (hpair0 kv hkvR).1
          exact of_decide_eq_true hc
        exact ih _ _ (n + 1)
          (fun kv2 h => hkeys kv2 (List.mem_cons_of_mem kv0 h)) hpairR
          kv hkvR (decide_eq_true hpres)
      · rw [if_neg hc0]
        exact ih _ _ n
          (fun kv2 h => hkeys kv2 (List.mem_cons_of_mem kv0 h)) hpairR
          kv hkvR hc

theorem substPlaceholders_complete (qv : Str) (vmap : List (Str × Val))
    (e : Str) (params : List (Str × Val))
    (hkeys : ∀ kv ∈ vmap, kv.1 ≠ [])
    (hpair : vmap.Pairwise (fun a b =>
      tokensIndependent a.1 b.1 ∧ tokensIndependent b.1 a.1))
    (kv : Str × Val) (hkv : kv ∈ vmap) (hc : goContains e kv.1 = true) :
    ∃ n2, (qv ++ natDigits n2, kv.2) ∈ (substPlaceholders qv vmap e params).2 := by
  unfold substPlaceholders
  exact substPlaceholders_foldl_complete qv vmap e params 1 hkeys hpair kv hkv hc

theorem begins_with_eliminated (s : Str) :
    ¬ "begins_with".data <:+: replaceAll "begins_with".data "STARTS_WITH".data s := by
  apply replaceAll_no_self
  · decide
  · intro q hq hqp hqs
    exact (by decide : ∀ q2 ∈ "begins_with".data.tails, q2 ≠ [] →
      q2 ≠ "begins_with".data → ¬ q2 <+: "STARTS_WITH".data ∧
        ¬ "STARTS_WITH".data <+: q2) q ((List.mem_tails _ _).mpr hqs) hq hqp
  · decide
  · intro x hx hxs
    exact (by decide : ∀ x2 ∈ "STARTS_WITH".data.tails, x2 ≠ [] →
      ¬ x2 <+: "begins_with".data) x ((List.mem_tails _ _).mpr hxs) hx

theorem createWhereClause_shape (wc e qv : Str) (vmap : List (Str × Val))
    (params : List (Str × Val)) (er : Str) (pr : List (Str × Val))
    (hne : wc ≠ "WHERE ".data)
    (hand : ¬ ("AND".data <:+ goTrimSpaceStr wc))
    (hsub : substPlaceholders qv vmap
      (replaceAll "begins_with".data "STARTS_WITH".data e) params = (er, pr))
    (hj : jsonPathRegexMatch er = false)
    (hern : er ≠ []) :
    createWhereClause wc e qv vmap params = ((wc ++ " AND ".data) ++ er, er, pr) := by
  unfold createWhereClause parseBeginsWith
  dsimp only
  rw [hsub]
  dsimp only
  have hcond : wc ≠ "WHERE ".data ∧ ¬ "AND".data <:+ goTrimSpaceStr wc :=
    ⟨hne, hand⟩
  rw [hj, if_pos hcond]
  simp only [Bool.false_eq_true, if_false, ite_false]
  rw [if_pos hern]

/-- C7: with a sort key the WHERE clause starts with the sort-key
not-null predicate, then the key condition, then the filter, both with
begins_with rewritten away to STARTS_WITH and the referenced value-map
tokens replaced by consecutively numbered rangeExpN / filterExpN
positional parameters carrying the mapped values. -/
theorem where_clause_contract (q : QueryMdl) (pKey sKey : String)
    (er ef : Str) (pr pf : List (Str × Val))
    (hsk : sKey ≠ "")
    (hrne : q.rangeExp ≠ [])
    (hfne : q.filterExp ≠ [])
    (herdef : substPlaceholders "rangeExp".data q.rangeValMap
      (replaceAll "begins_with".data "STARTS_WITH".data q.rangeExp) [] =
      (er, pr))
    (hefdef : substPlaceholders "filterExp".data q.rangeValMap
      (replaceAll "begins_with".data "STARTS_WITH".data q.filterExp) pr =
      (ef, pf))
    (hjr : jsonPathRegexMatch er = false)
    (hjf : jsonPathRegexMatch ef = false)
    (herne : er ≠ [])
    (hefne : ef ≠ [])
    (hand1 : ¬ ("AND".data <:+ goTrimSpaceStr
      ("WHERE ".data ++ sKey.data ++ " is not null ".data)))
    (hand2 : ¬ ("AND".data <:+ goTrimSpaceStr
      ("WHERE ".data ++ sKey.data ++ " is not null ".data ++ " AND ".data ++ er)))
    (hkeys : ∀ kv ∈ q.rangeValMap, kv.1 ≠ [])
    (hsep : q.rangeValMap.Pairwise (fun a b =>
      tokensIndependent a.1 b.1 ∧ tokensIndependent b.1 a.1)) :
    parseSpannerCondition q pKey sKey =
      ("WHERE ".data ++ sKey.data ++ " is not null ".data ++ " AND ".data ++
        er ++ " AND ".data ++ ef, pf) ∧
    (¬ "begins_with".data <:+: er) ∧
    (¬ "begins_with".data <:+: ef) ∧
    (∃ bsf, pf = pr ++ bsf ∧
      (∀ i (hi : i < pr.length), ∃ v, pr.get ⟨i, hi⟩ =
        ("rangeExp".data ++ natDigits (1 + i), v) ∧
        ∃ kk, (kk, v) ∈ q.rangeValMap) ∧
      (∀ i (hi : i < bsf.length), ∃ v, bsf.get ⟨i, hi⟩ =
        ("filterExp".data ++ natDigits (1 + i), v) ∧
        ∃ kk, (kk, v) ∈ q.rangeValMap)) ∧
    (∀ kv ∈ q.rangeValMap,
      goContains (replaceAll "begins_with".data "STARTS_WITH".data q.rangeExp)
        kv.1 = true →
      ∃ n2, ("rangeExp".data ++ natDigits n2, kv.2) ∈ pr) ∧
    (∀ kv ∈ q.rangeValMap,
      goContains (replaceAll "begins_with".data "STARTS_WITH".data q.filterExp)
        kv.1 = true →
      ∃ n2, ("filterExp".data ++ natDigits n2, kv.2) ∈ pf) := by
  have hwc1ne : ("WHERE ".data ++ sKey.data ++ " is not null ".data) ≠
      "WHERE ".data := by
    intro h
    have := congrArg List.length h
    simp at this
  have hr1 := createWhereClause_shape
    ("WHERE ".data ++ sKey.data ++ " is not null ".data) q.rangeExp
    "rangeExp".data q.rangeValMap [] er pr hwc1ne hand1 herdef hjr herne
  have hwc2ne : (("WHERE ".data ++ sKey.data ++ " is not null ".data ++
      " AND ".data) ++ er) ≠ "WHERE ".data := by
    intro h
    have := congrArg List.length h
    simp at this
  have hr2 := createWhereClause_shape
    (("WHERE ".data ++ sKey.data ++ " is not null ".data ++ " AND ".data) ++ er)
    q.filterExp "filterExp".data q.rangeValMap pr ef pf hwc2ne
    (by simpa [List.append_assoc] using hand2) hefdef hjf hefne
  refine ⟨?_, ?_, ?_, ?_, ?_, ?_⟩
  · unfold parseSpannerCondition
    dsimp only
    rw [if_pos hsk, if_pos hrne]
    rw [hr1]
    dsimp only
    rw [if_pos hfne]
    rw [show (("WHERE ".data ++ sKey.data ++ " is not null ".data ++
      " AND ".data) ++ er) = (("WHERE ".data ++ sKey.data ++
      " is not null ".data) ++ " AND ".data) ++ er from by
        simp [List.append_assoc]] at hr2
    rw [hr2]
    dsimp only
    rw [if_neg (show ¬ ((("WHERE ".data ++ sKey.data ++ " is not null ".data ++
        " AND ".data) ++ er ++ " AND ".data) ++ ef = "WHERE ".data) from by
      intro h
      have := congrArg List.length h
      simp at this)]
  · have h := substPlaceholders_no_occurrence "rangeExp".data "begins_with".data
      (by decide) (by decide) (by decide) (by decide) q.rangeValMap
      (replaceAll "begins_with".data "STARTS_WITH".data q.rangeExp) []
      hkeys (begins_with_eliminated q.rangeExp)
    rw [herdef] at h
    simpa using h
  · have h := substPlaceholders_no_occurrence "filterExp".data "begins_with".data
      (by decide) (by decide) (by decide) (by decide) q.rangeValMap
      (replaceAll "begins_with".data "STARTS_WITH".data q.filterExp) pr
      hkeys (begins_with_eliminated q.filterExp)
    rw [hefdef] at h
    simpa using h
  · obtain ⟨bsr, hbr1, hbr2⟩ := substPlaceholders_params_shape "rangeExp".data
      q.rangeValMap (replaceAll "begins_with".data "STARTS_WITH".data
        q.rangeExp) []
    rw [herdef] at hbr1
    have hpr : pr = bsr := by simpa using hbr1
    obtain ⟨bsf, hbf1, hbf2⟩ := substPlaceholders_params_shape "filterExp".data
      q.rangeValMap (replaceAll "begins_with".data "STARTS_WITH".data
        q.filterExp) pr
    rw [hefdef] at hbf1
    refine ⟨bsf, by simpa using hbf1, ?_, hbf2⟩
    subst hpr
    exact hbr2
  · intro kv hkv hc
    have h := substPlaceholders_complete "rangeExp".data q.rangeValMap
      (replaceAll "begins_with".data "STARTS_WITH".data q.rangeExp) []
      hkeys hsep kv hkv hc
    rw [herdef] at h
    simpa using h
  · intro kv hkv hc
    have h := substPlaceholders_complete "filterExp".data q.rangeValMap
      (replaceAll "begins_with".data "STARTS_WITH".data q.filterExp) pr
      hkeys hsep kv hkv hc
    rw [hefdef] at h
    simpa using h

theorem where_clause_contract_witness :
    parseSpannerCondition
      (QueryMdl.mk "t" "" false 0 false none "" [] "c = :c".data
        "begins_with(sk, :b)".data
        [(":b".data, Val.vstr "y"), (":c".data, Val.vstr "z")]) "id" "sk" =
      ("WHERE ".data ++ "sk".data ++ " is not null ".data ++ " AND ".data ++
        "STARTS_WITH(sk, @rangeExp1)".data ++ " AND ".data ++
        "c = @filterExp1".data,
       [("rangeExp1".data, Val.vstr "y"), ("filterExp1".data, Val.vstr "z")]) ∧
    (¬ "begins_with".data <:+: "STARTS_WITH(sk, @rangeExp1)".data) ∧
    (¬ "begins_with".data <:+: "c = @filterExp1".data) ∧
    (∃ bsf, ([("rangeExp1".data, Val.vstr "y"), ("filterExp1".data, Val.vstr "z")] :
        List (Str × Val)) = [("rangeExp1".data, Val.vstr "y")] ++ bsf ∧
      (∀ i (hi : i < ([("rangeExp1".data, Val.vstr "y")] :
          List (Str × Val)).length),
        ∃ v, ([("rangeExp1".data, Val.vstr "y")] :
            List (Str × Val)).get ⟨i, hi⟩ =
          ("rangeExp".data ++ natDigits (1 + i), v) ∧
          ∃ kk, (kk, v) ∈ [(":b".data, Val.vstr "y"), (":c".data, Val.vstr "z")]) ∧
      (∀ i (hi : i < bsf.length), ∃ v, bsf.get ⟨i, hi⟩ =
        ("filterExp".data ++ natDigits (1 + i), v) ∧
        ∃ kk, (kk, v) ∈ [(":b".data, Val.vstr "y"), (":c".data, Val.vstr "z")])) ∧
    (∀ kv ∈ ([(":b".data, Val.vstr "y"), (":c".data, Val.vstr "z")] :
        List (Str × Val)),
      goContains (replaceAll "begins_with".data "STARTS_WITH".data
        "begins_with(sk, :b)".data) kv.1 = true →
      ∃ n2, ("rangeExp".data ++ natDigits n2, kv.2) ∈
        ([("rangeExp1".data, Val.vstr "y")] : List (Str × Val))) ∧
    (∀ kv ∈ ([(":b".data, Val.vstr "y"), (":c".data, Val.vstr "z")] :
        List (Str × Val)),
      goContains (replaceAll "begins_with".data "STARTS_WITH".data
        "c = :c".data) kv.1 = true →
      ∃ n2, ("filterExp".data ++ natDigits n2, kv.2) ∈
        ([("rangeExp1".data, Val.vstr "y"), ("filterExp1".data, Val.vstr "z")] :
          List (Str × Val))) :=
  where_clause_contract
    (QueryMdl.mk "t" "" false 0 false none "" [] "c = :c".data
      "begins_with(sk, :b)".data
      [(":b".data, Val.vstr "y"), (":c".data, Val.vstr "z")]) "id" "sk"
    "STARTS_WITH(sk, @rangeExp1)".data "c = @filterExp1".data
    [("rangeExp1".data, Val.vstr "y")]
    [("rangeExp1".data, Val.vstr "y"), ("filterExp1".data, Val.vstr "z")]
    (by decide) (by decide) (by decide) rfl rfl rfl rfl (by decide) (by decide)
    (by decide) (by decide) (by decide)
    (by
      refine List.Pairwise.cons ?_ (List.Pairwise.cons ?_ List.Pairwise.nil)
      · intro b hb
        simp only [List.mem_singleton] at hb
        subst hb
        exact ⟨tokensIndependent_of_tails _ _ (by decide) (by decide),
          tokensIndependent_of_tails _ _ (by decide) (by decide)⟩
      · intro b hb
        simp at hb)

/-- C7 counterexample: with the admissible value map holding both :v1
and :v10, processing :v1 first rewrites the :v1 occurrence inside the
referenced :v10, so the clause ends up referencing the parameter
rangeExp10 while only rangeExp1 is bound and the value of :v10 is
never bound at all. -/
theorem placeholder_collision_counterexample :
    (parseSpannerCondition
      (QueryMdl.mk "t" "" false 0 false none "" [] []
        "sk = :v10".data
        [(":v1".data, Val.vstr "a"), (":v10".data, Val.vstr "b")])
      "id" "sk").2 = [("rangeExp1".data, Val.vstr "a")] ∧
    goContains (parseSpannerCondition
      (QueryMdl.mk "t" "" false 0 false none "" [] []
        "sk = :v10".data
        [(":v1".data, Val.vstr "a"), (":v10".data, Val.vstr "b")])
      "id" "sk").1 "@rangeExp10".data = true ∧
    goContains "sk = :v10".data ":v10".data = true ∧
    (¬ ∃ n2, ("rangeExp".data ++ natDigits n2, Val.vstr "b") ∈
      ([("rangeExp1".data, Val.vstr "a")] : List (Str × Val))) ∧
    (∀ kv ∈ ([("rangeExp1".data, Val.vstr "a")] : List (Str × Val)),
      kv.1 ≠ "rangeExp10".data) := by
  refine ⟨rfl, rfl, rfl, ?_, by decide⟩
  rintro ⟨n2, hmem⟩
  simp only [List.mem_singleton, Prod.mk.injEq] at hmem
  exact absurd hmem.2 (by simp)

end DynamoAdapter
